import Mathlib

/-!
# rss-dl: the per-item download protocol

A shallow embedding of `main.go` of `blinsay/rss-dl`: the filename helpers
(`truncate`, `escapeTitle`), `downloadURL`, the per-item protocol `downloadItem`,
the worker loop `downloadItems` and the feed producer `fetchFeed`.

Go strings are byte sequences; they are lists of byte values here.  A feed title
is text that `encoding/xml` has already checked to be valid UTF-8, so it is a
Lean `String` (a sequence of runes) and `utf8` gives its bytes.

Calls into the Go standard library and the operating system are not part of the
repository.  Their results are fields of an environment record (one record per
call of the function that is modelled), and each call that a function makes is
recorded in a trace.  The filesystem is an explicit state, a map from paths to
what they hold; `os.Stat` finds exactly the paths that hold something.  The path
functions of `path/filepath` are transcribed for a Unix system, where the
separator is `/` and there are no volume names.  The library is the one of a
current Go release: `ioutil.TempFile` is `os.CreateTemp`, which rejects a pattern
with a separator, and the buffered writer of the copy hands the copy to the file;
`os.Rename` and `os.Chmod` follow their documentation.  A panic is the `.error`
of an `Except`; a worker is modelled alone, taking its items one after another.
-/

namespace RssDl

/-! ## Strings -/

/-- A Go `string`: a sequence of bytes. -/
abbrev GoString := List Nat

/-- The UTF-8 bytes of one rune, as `utf8.EncodeRune` lays them out. -/
def encodeRune (r : Char) : List Nat :=
  let i := r.toNat
  if i ≤ 0x7F then [i]
  else if i ≤ 0x7FF then [0xC0 + i / 64, 0x80 + i % 64]
  else if i ≤ 0xFFFF then [0xE0 + i / 4096, 0x80 + i / 64 % 64, 0x80 + i % 64]
  else [0xF0 + i / 262144, 0x80 + i / 4096 % 64, 0x80 + i / 64 % 64, 0x80 + i % 64]

/-- The bytes of a text. -/
def utf8 (s : String) : GoString :=
  s.data.flatMap encodeRune

/-- Go `truncate`: the first `n` bytes of `s` when `s` is longer than `n` bytes. -/
def truncate (s : GoString) (n : Nat) : GoString :=
  if s.length > n then s.take n else s

/-- The ten reserved characters of the `switch` in `escapeTitle`. -/
def reserved (r : Char) : Bool :=
  r == '/' || r == '\\' || r == '?' || r == '%' || r == '*' || r == ':' ||
  r == '|' || r == '"' || r == '<' || r == '>'

/-- Go `escapeTitle`: range over the runes of `s`, appending `_` for a reserved
rune and the rune itself otherwise. -/
def escapeTitle (s : String) : String :=
  ⟨s.data.foldl (fun escaped r => if reserved r then escaped ++ ['_'] else escaped ++ [r]) []⟩

/-! ## `path/filepath` on Unix -/

/-- The path separator `/`. -/
def Separator : Nat := 47

/-- The byte `.`. -/
def dot : Nat := 46

/-- Go `os.IsPathSeparator`. -/
def IsPathSeparator (c : Nat) : Bool := c == Separator

/-- The first loop of `filepath.Base`, on the reversed path: strip trailing
separators. -/
def stripTrailing : List Nat → List Nat
  | [] => []
  | c :: rest => if IsPathSeparator c then stripTrailing rest else c :: rest

/-- The second loop of `filepath.Base`, on the reversed path: the bytes after the
last separator. -/
def lastElement : List Nat → List Nat
  | [] => []
  | c :: rest => if IsPathSeparator c then [] else c :: lastElement rest

/-- Go `filepath.Base`: the last element of `path`, `.` for the empty path and
`/` for a path of separators only. -/
def Base (path : GoString) : GoString :=
  if path = [] then [dot]
  else
    let path := (lastElement (stripTrailing path.reverse)).reverse
    if path = [] then [Separator] else path

/-- The loop of `filepath.Ext`, on the reversed path, with the bytes already seen
in `seen`: walk back from the end until a dot or a separator. -/
def extLoop : List Nat → List Nat → List Nat
  | [], _ => []
  | c :: rest, seen =>
    if IsPathSeparator c then []
    else if c = dot then c :: seen
    else extLoop rest (c :: seen)

/-- Go `filepath.Ext`: the suffix of `path` from the last dot of its last element,
empty when that element has no dot. -/
def Ext (path : GoString) : GoString :=
  extLoop path.reverse []

/-- The backtracking of `filepath.Clean` at a `..` element, on the reversed output
buffer: drop the last byte, and keep dropping while the buffer is longer than
`dotdot` and the byte just dropped is not a separator. -/
def backtrack (dotdot : Nat) : List Nat → List Nat
  | [] => []
  | c :: rest =>
    if rest.length > dotdot && !IsPathSeparator c then backtrack dotdot rest else rest

/-- The state of the main loop of `filepath.Clean`: the output buffer (reversed),
the index `dotdot` below which `..` may not backtrack, and whether the loop is in
the middle of copying a real path element. -/
structure CleanState where
  out : List Nat
  dotdot : Nat
  copying : Bool
deriving DecidableEq, Repr

/-- The buffer to which a real path element is appended: `Clean` adds a separator
first unless the buffer is empty or holds only the root. -/
def withSeparator (rooted : Bool) (out : List Nat) : List Nat :=
  if (rooted && out.length != 1) || (!rooted && out.length != 0) then Separator :: out else out

/-- The state after a `..` element: backtrack over the last element when there is
one above `dotdot`; otherwise append `..` when the path is not rooted, and drop
the element when it is. -/
def dotdotElement (rooted : Bool) (s : CleanState) : CleanState :=
  if s.out.length > s.dotdot then ⟨backtrack s.dotdot s.out, s.dotdot, false⟩
  else if !rooted then
    let o := if s.out.length > 0 then Separator :: s.out else s.out
    ⟨dot :: dot :: o, (dot :: dot :: o).length, false⟩
  else ⟨s.out, s.dotdot, false⟩

/-- The main loop of `filepath.Clean` over the remaining input. -/
def cleanLoop (rooted : Bool) : List Nat → CleanState → CleanState
  | [], s => s
  | c :: rest, s =>
    if IsPathSeparator c then
      -- empty path element, or the end of the element being copied
      cleanLoop rooted rest ⟨s.out, s.dotdot, false⟩
    else if s.copying then
      cleanLoop rooted rest ⟨c :: s.out, s.dotdot, true⟩
    else if c != dot then
      -- real path element
      cleanLoop rooted rest ⟨c :: withSeparator rooted s.out, s.dotdot, true⟩
    else
      match rest with
      | [] => s
      | d :: rest2 =>
        if IsPathSeparator d then
          -- `.` element
          cleanLoop rooted rest2 ⟨s.out, s.dotdot, false⟩
        else if d == dot && (rest2.head?.all IsPathSeparator) then
          -- `..` element
          cleanLoop rooted rest2 (dotdotElement rooted s)
        else
          -- real path element that starts with a dot
          cleanLoop rooted rest2 ⟨d :: c :: withSeparator rooted s.out, s.dotdot, true⟩

/-- Go `filepath.Clean`: the shortest path equivalent to `path` by lexical
processing. -/
def Clean (path : GoString) : GoString :=
  if path = [] then [dot]
  else
    let rooted := path.head?.all IsPathSeparator
    let s0 : CleanState := if rooted then ⟨[Separator], 1, false⟩ else ⟨[], 0, false⟩
    let s := cleanLoop rooted (if rooted then path.tail else path) s0
    if s.out.length = 0 then [dot] else s.out.reverse

/-- Go `filepath.Join` of two elements: empty elements are ignored and the result
is cleaned. -/
def Join (a b : GoString) : GoString :=
  if a ≠ [] then Clean (a ++ Separator :: b)
  else if b ≠ [] then Clean b
  else []

/-! ## The feed types -/

/-- A Go `error` value: its text, and whether it is a timeout (a `*url.Error`
whose `Timeout()` holds, or `context.DeadlineExceeded`). -/
structure GoError where
  text : String
  timeout : Bool
deriving DecidableEq, Repr

/-- Go `enclosure`: the piece of media of an item (`Typ` is the field `Type`). -/
structure enclosure where
  URL : GoString
  Length : GoString
  Typ : GoString
deriving DecidableEq, Repr

/-- Go `item`: an item of a feed.  `Enclosure` is a pointer, `none` is `nil`. -/
structure item where
  Title : String
  Link : GoString
  Description : GoString
  Author : GoString
  Category : GoString
  Enclosure : Option enclosure
  PubDate : GoString
deriving DecidableEq, Repr

/-- Go `image`. -/
structure image where
  URL : GoString
  Title : GoString
  Link : GoString
  Width : Int
  Height : Int
deriving DecidableEq, Repr

/-- Go `channel`. -/
structure channel where
  PubDate : GoString
  LastBuildDate : GoString
  Image : Option image
  Items : List item
deriving DecidableEq, Repr

/-- Go `feed`: the top-level element.  `Channel` is a pointer, `none` is `nil`. -/
structure feed where
  Version : GoString
  Xmlns : GoString
  Channel : Option channel
deriving DecidableEq, Repr

/-- The package-level flags that the download path reads. -/
structure Config where
  verbose : Bool
  downloadDir : GoString
  tempDir : GoString
  clobber : Bool
  useTitleAsFilename : Bool
deriving DecidableEq, Repr

/-- Go `status`: the status of a download.  The defaults are Go's zero values, so
that a literal may leave fields out as the source does. -/
structure status where
  name : GoString
  filename : GoString := []
  downloaded : Bool := false
  err : Option GoError := none
  msg : String := ""
  fatal : Bool := false
deriving DecidableEq, Repr

/-! ## The filesystem -/

/-- What a path holds: a regular file with its bytes and permission bits, or a
directory. -/
inductive Node where
  | file (content : List Nat) (mode : Nat)
  | dir
deriving DecidableEq, Repr

/-- A filesystem state: what each path holds, `none` when nothing is there. -/
abbrev FS := GoString → Option Node

/-- The state `fs` with `path` holding `n`. -/
def FS.set (fs : FS) (path : GoString) (n : Option Node) : FS :=
  fun q => if q = path then n else fs q

/-- A response of the HTTP client: the status code, the path of the URL that was
finally requested (`resp.Request.URL.Path`), and the body as a stream: the bytes
it delivers and the error that ends it, `none` for a clean `io.EOF`. -/
structure Response where
  StatusCode : Nat
  Path : GoString
  Body : List Nat
  BodyErr : Option GoError
deriving DecidableEq, Repr

/-- The results of the library and system calls of one call of `downloadItem`. -/
structure Env where
  /-- Result of `url.Parse`: the error, or the text of the parsed URL. -/
  urlParse : GoString → Except GoError GoString
  /-- Error of `http.NewRequest`, if any. -/
  newRequest : GoString → Option GoError
  /-- Error of `http.DefaultClient.Do`, if any. -/
  doErr : Option GoError
  /-- Response of `http.DefaultClient.Do` when there is no error. -/
  resp : Response
  /-- Value of `os.TempDir()`. -/
  osTempDir : GoString
  /-- Successive random strings that `ioutil.TempFile` draws. -/
  randoms : List GoString
  /-- Error of opening a new temp file, other than "already exists". -/
  openErr : Option GoError
  /-- Error of a write to the temp file, if writes fail. -/
  writeErr : Option GoError
  /-- Error of `os.Rename` from the system, if any. -/
  renameErr : Option GoError
  /-- Error of `os.Chmod`, if any. -/
  chmodErr : Option GoError

/-- One library or system call made by `downloadItem`, with its result. -/
inductive Event where
  | urlParse (ok : Bool)
  | newRequest (ok : Bool)
  | httpDo (ok : Bool)
  | response (code : Nat)
  | stat (path : GoString) (found : Bool)
  | tempFile (path : Option GoString)
  | copy (ok : Bool)
  | rename (old new : GoString) (ok : Bool)
  | chmod (path : GoString) (ok : Bool)
  | closeBody
deriving DecidableEq, Repr

/-- The split of a temp-file pattern at its last `*`, on the reversed pattern with
the bytes after the current position in `seen`. -/
def splitStar : List Nat → List Nat → Option (GoString × GoString)
  | [], _ => none
  | c :: rest, seen => if c = 42 then some (rest.reverse, seen) else splitStar rest (c :: seen)

/-- Go `prefixAndSuffix` of package `os`: a pattern with a path separator is an
error; otherwise the parts before and after the last `*`, or the whole pattern
and nothing. -/
def prefixAndSuffix (pattern : GoString) : Except GoError (GoString × GoString) :=
  if pattern.any IsPathSeparator then .error ⟨"pattern contains path separator", false⟩
  else
    match splitStar pattern.reverse [] with
    | some ps => .ok ps
    | none => .ok (pattern, [])

/-- Go `joinPath` of package `os`: `dir` and `name` with a separator between them
unless `dir` ends with one. -/
def joinPath (dir name : GoString) : GoString :=
  if dir.getLast?.any IsPathSeparator then dir ++ name else dir ++ Separator :: name

/-- The loop of `os.CreateTemp`: open `prefix+random+suffix` exclusively, trying
the next random string when the name is taken. -/
def tryNames (openErr : Option GoError) (fs : FS) (pre suf : GoString) :
    List GoString → Except GoError (GoString × FS)
  | [] => .error ⟨"file exists", false⟩
  | r :: rs =>
    let name := pre ++ r ++ suf
    if fs name ≠ none then tryNames openErr fs pre suf rs
    else
      match openErr with
      | some err => .error err
      | none => .ok (name, fs.set name (some (.file [] 0o600)))

/-- Go `ioutil.TempFile`, which is `os.CreateTemp`: a new empty file in `dir` with
mode 0600, named after `pattern`. -/
def TempFile (env : Env) (fs : FS) (dir pattern : GoString) : Except GoError (GoString × FS) :=
  let dir := if dir = [] then env.osTempDir else dir
  match prefixAndSuffix pattern with
  | .error err => .error err
  | .ok ps => tryNames env.openErr fs (joinPath dir ps.1) ps.2 env.randoms

/-- The copy `io.Copy(bufio.NewWriter(tempFile), bufio.NewReader(resp.Body))`:
`(*bufio.Reader).WriteTo` calls `(*bufio.Writer).ReadFrom`, and the writer, whose
buffer is empty, hands the copy to `(*os.File).ReadFrom`, which writes to the file
each chunk that it reads.  So the bytes never wait in the buffer of the writer,
which `downloadItem` does not flush.  The stream is taken one byte per read;
`file` is the bytes already in the file.  Returns the bytes in the file and the
error of the copy: the error of the first write when writes fail, otherwise the
error that ends the stream. -/
def ReadFrom (writeErr bodyErr : Option GoError) : List Nat → List Nat → List Nat × Option GoError
  | [], file => (file, bodyErr)
  | b :: rest, file =>
    match writeErr with
    | some err => (file, some err)
    | none => ReadFrom writeErr bodyErr rest (file ++ [b])

/-- Go `os.Rename` of a regular file: fails when the system says so or when `new`
is a directory, and otherwise moves what `old` holds to `new`. -/
def Rename (env : Env) (fs : FS) (old new : GoString) : Except GoError FS :=
  match env.renameErr with
  | some err => .error err
  | none =>
    match fs new with
    | some .dir => .error ⟨"file exists", false⟩
    | _ => .ok ((fs.set old none).set new (fs old))

/-- Go `os.Chmod`: sets the permission bits of the file at `path`. -/
def Chmod (env : Env) (fs : FS) (path : GoString) (mode : Nat) : Except GoError FS :=
  match env.chmodErr with
  | some err => .error err
  | none =>
    match fs path with
    | some (.file content _) => .ok (fs.set path (some (.file content mode)))
    | _ => .ok fs

/-- Whether `err` makes the timeout test of the source true:
`isURLErr && urlErr.Timeout() || err == context.DeadlineExceeded`. -/
def isTimeout (err : Option GoError) : Bool :=
  match err with
  | some e => e.timeout
  | none => false

/-- What a call of `downloadItem` leaves: the status it returns (`.error` when it
panics instead), the filesystem, and the calls it made, in order. -/
structure Outcome where
  result : Except String status
  fs : FS
  trace : List Event

/-- The filename of lines 251-256: the escaped title plus the extension of the
final URL path, or the base of the final URL path. -/
def filenameOf (cfg : Config) (it : item) (resp : Response) : GoString :=
  if cfg.useTitleAsFilename then utf8 (escapeTitle it.Title) ++ Ext resp.Path
  else Base resp.Path

/-- Go `downloadURL`: the parsed enclosure URL of the item or the error of
`url.Parse`; the outer `.error` is the panic of reading `item.Enclosure.URL`
through a nil `Enclosure`. -/
def downloadURL (env : Env) (it : item) : Except String (Except GoError GoString) :=
  match it.Enclosure with
  | none => .error "invalid memory address or nil pointer dereference"
  | some encl => .ok (env.urlParse encl.URL)

/-- Go `downloadItem`. -/
def downloadItem (cfg : Config) (env : Env) (fs : FS) (it : item) : Outcome :=
  let name := truncate (utf8 it.Title) 60
  match downloadURL env it with
  | .error p => ⟨.error p, fs, []⟩
  | .ok (.error err) =>
    ⟨.ok { name := name, err := some err, msg := "bad url" }, fs, [.urlParse false]⟩
  | .ok (.ok downloadURL) =>
  match env.newRequest downloadURL with
  | some err =>
    ⟨.ok { name := name, err := some err, msg := "invalid download url" }, fs,
      [.urlParse true, .newRequest false]⟩
  | none =>
  let err := env.doErr
  if isTimeout err then
    ⟨.ok { name := name, err := err, msg := "timed out" }, fs,
      [.urlParse true, .newRequest true, .httpDo false]⟩
  else if err ≠ none then
    ⟨.ok { name := name, err := err, msg := "download failed" }, fs,
      [.urlParse true, .newRequest true, .httpDo false]⟩
  else
  let resp := env.resp
  if resp.StatusCode ≠ 200 then
    ⟨.ok { name := name, err := err,
           msg := "unexpected response from the server: " ++ toString resp.StatusCode }, fs,
      [.urlParse true, .newRequest true, .httpDo true, .response resp.StatusCode, .closeBody]⟩
  else
  let filename := filenameOf cfg it resp
  let finalPath := Join cfg.downloadDir filename
  let stat := fs finalPath
  if !cfg.clobber && stat ≠ none then
    ⟨.ok { name := name, filename := filename }, fs,
      [.urlParse true, .newRequest true, .httpDo true, .response resp.StatusCode,
        .stat finalPath true, .closeBody]⟩
  else
  let pre := [Event.urlParse true, .newRequest true, .httpDo true, .response resp.StatusCode,
    .stat finalPath (stat ≠ none)]
  match TempFile env fs cfg.tempDir (truncate filename 20) with
  | .error err =>
    ⟨.ok { name := name, msg := "creating a tempfile failed", err := some err, fatal := true }, fs,
      pre ++ [.tempFile none, .closeBody]⟩
  | .ok (tempName, fs1) =>
  let copied := ReadFrom env.writeErr resp.BodyErr resp.Body []
  let fs2 := fs1.set tempName (some (.file copied.1 0o600))
  match copied.2 with
  | some err =>
    ⟨.ok { name := name, msg := "download failed", err := some err }, fs2,
      pre ++ [.tempFile (some tempName), .copy false, .closeBody]⟩
  | none =>
  match Rename env fs2 tempName finalPath with
  | .error err =>
    ⟨.ok { name := name, msg := "moving file failed", err := some err, fatal := true }, fs2,
      pre ++ [.tempFile (some tempName), .copy true,
        .rename tempName finalPath false, .closeBody]⟩
  | .ok fs3 =>
  match Chmod env fs3 finalPath 0o644 with
  | .error err =>
    ⟨.ok { name := name, msg := "cmmod failed", err := some err, fatal := true }, fs3,
      pre ++ [.tempFile (some tempName), .copy true,
        .rename tempName finalPath true, .chmod finalPath false, .closeBody]⟩
  | .ok fs4 =>
    ⟨.ok { name := name, filename := filename, downloaded := true }, fs4,
      pre ++ [.tempFile (some tempName), .copy true,
        .rename tempName finalPath true, .chmod finalPath true, .closeBody]⟩

/-! ## The worker loop -/

/-- A line that the worker loop logs. -/
inductive LogLine where
  /-- Line `weeeelp: crashed downloading <name>: <msg>: <err>` of `log.Fatalf`. -/
  | crashed (name : GoString) (msg : String) (err : Option GoError)
  /-- Line `welp: downloading <name> failed: <msg>`. -/
  | failed (name : GoString) (msg : String)
  /-- The error detail that follows a failure in verbose mode. -/
  | detail (err : Option GoError)
  /-- Line `fyi: <filename> already exists`. -/
  | alreadyExists (filename : GoString)
  /-- Line `cool: downloaded <filename>`. -/
  | downloaded (filename : GoString)
deriving DecidableEq, Repr

/-- How a worker stops: the channel is drained, `log.Fatalf` ended the process, or
a panic did. -/
inductive Exit where
  | drained
  | fatal
  | panic
deriving DecidableEq, Repr

/-- What a worker leaves: its log lines, the filesystem, how it stopped, and the
calls of all its downloads. -/
structure WorkerRun where
  log : List LogLine
  fs : FS
  exit : Exit
  trace : List Event

/-- Go `downloadItems` for one worker: the items arrive with the environment each
one meets, and are downloaded one after another. -/
def downloadItems (cfg : Config) : List (Env × item) → FS → WorkerRun
  | [], fs => ⟨[], fs, .drained, []⟩
  | (env, it) :: items, fs =>
    let o := downloadItem cfg env fs it
    match o.result with
    | .error _ => ⟨[], o.fs, .panic, o.trace⟩
    | .ok status =>
      if status.fatal then
        ⟨[.crashed status.name status.msg status.err], o.fs, .fatal, o.trace⟩
      else
        let lines :=
          if status.err ≠ none then
            [LogLine.failed status.name status.msg] ++
              (if cfg.verbose then [LogLine.detail status.err] else [])
          else if !status.downloaded then [LogLine.alreadyExists status.filename]
          else [LogLine.downloaded status.filename]
        let w := downloadItems cfg items o.fs
        ⟨lines ++ w.log, w.fs, w.exit, o.trace ++ w.trace⟩

/-! ## The feed producer -/

/-- The results of the library calls of one call of `fetchFeed`. -/
structure FeedEnv where
  /-- Error of `http.NewRequest`, if any. -/
  newRequest : GoString → Option GoError
  /-- Error of `http.DefaultClient.Do`, if any. -/
  doErr : Option GoError
  /-- Status code of the response. -/
  StatusCode : Nat
  /-- Result of decoding the body into a `feed`. -/
  decode : Except GoError feed

/-- A line that `fetchFeed` logs. -/
inductive FeedLog where
  | timedOut (feedURL : GoString)
  | couldntFetch (feedURL : GoString)
  | detail (err : Option GoError)
  | badResponse (feedURL : GoString) (code : Nat)
  | notAFeed (feedURL : GoString)
deriving DecidableEq, Repr

/-- Go `fetchFeed`: the lines it logs and the items it sends on the channel, or
`.error` when it panics. -/
def fetchFeed (cfg : Config) (env : FeedEnv) (feedURL : GoString) :
    Except String (List FeedLog × List item) :=
  match env.newRequest feedURL with
  | some err => .error err.text
  | none =>
  let err := env.doErr
  if isTimeout err then .ok ([.timedOut feedURL], [])
  else if err ≠ none then
    .ok ([FeedLog.couldntFetch feedURL] ++ (if cfg.verbose then [FeedLog.detail err] else []), [])
  else if env.StatusCode ≠ 200 then .ok ([.badResponse feedURL env.StatusCode], [])
  else
  match env.decode with
  | .error _ => .ok ([.notAFeed feedURL], [])
  | .ok feed =>
    match feed.Channel with
    | none => .error "invalid memory address or nil pointer dereference"
    | some channel => .ok ([], channel.Items)

/-- The loop of `main` over the feed URLs: each is fetched in turn; a panic ends
the process, so it ends the loop. -/
def fetchFeeds (cfg : Config) : List (FeedEnv × GoString) → Except String (List FeedLog × List item)
  | [] => .ok ([], [])
  | (env, feedURL) :: rest =>
    match fetchFeed cfg env feedURL with
    | .error p => .error p
    | .ok (log, items) =>
      match fetchFeeds cfg rest with
      | .error p => .error p
      | .ok (log2, items2) => .ok (log ++ log2, items ++ items2)

/-! ## Reading a trace -/

/-- The kind of a call. -/
inductive Step where
  | urlParse | newRequest | httpDo | response | stat | tempFile | copy | rename | chmod | closeBody
deriving DecidableEq, Repr

/-- The kind of call of an event. -/
def Event.step : Event → Step
  | .urlParse _ => .urlParse
  | .newRequest _ => .newRequest
  | .httpDo _ => .httpDo
  | .response _ => .response
  | .stat _ _ => .stat
  | .tempFile _ => .tempFile
  | .copy _ => .copy
  | .rename _ _ _ => .rename
  | .chmod _ _ => .chmod
  | .closeBody => .closeBody

/-- Whether the call failed: it returned an error, or the response is not a 200. -/
def Event.failed : Event → Bool
  | .urlParse ok => !ok
  | .newRequest ok => !ok
  | .httpDo ok => !ok
  | .response code => decide (code ≠ 200)
  | .stat _ _ => false
  | .tempFile path => path.isNone
  | .copy ok => !ok
  | .rename _ _ ok => !ok
  | .chmod _ ok => !ok
  | .closeBody => false

/-- The kind of the call that failed in a trace, if one did. -/
def failedStep (trace : List Event) : Option Step :=
  (trace.find? Event.failed).map Event.step

/-- Whether the event is a successful rename onto `path`. -/
def Event.renamedOnto (path : GoString) : Event → Bool
  | .rename _ new ok => ok && new == path
  | _ => false

/-- The number of successful renames onto `path` in a trace. -/
def renamesOnto (path : GoString) (trace : List Event) : Nat :=
  trace.countP (Event.renamedOnto path)

/-- Whether the event reads the response body or creates a temp file. -/
def Event.touchesBodyOrTemp : Event → Bool
  | .copy _ => true
  | .tempFile _ => true
  | _ => false

/-- Whether a log line reports a recoverable download failure. -/
def LogLine.isFailure : LogLine → Bool
  | .failed _ _ => true
  | _ => false

/-- Whether a filename is a single path element: not empty, not `.` or `..`, and
without a separator. -/
def properElement (f : GoString) : Bool :=
  f != [] && f != [dot] && f != [dot, dot] && !f.contains Separator

/-- The path of the entry `f` of the cleaned directory `d`. -/
def childOf (d f : GoString) : GoString :=
  if d = [dot] then f
  else if d = [Separator] then Separator :: f
  else d ++ Separator :: f

/-! ## Sample data -/

deriving instance DecidableEq for Except

/-- A `url.Parse` that rejects one URL, the one with a blank in its host name. -/
def sampleParse (u : GoString) : Except GoError GoString :=
  if u = utf8 "http://bad host/ep1.mp3" then .error ⟨"invalid character in host name", false⟩
  else .ok u

/-- An environment where every call succeeds and the server answers `200` with
`body` for the URL path `path`. -/
def sampleEnv (path : String) (body : List Nat) : Env where
  urlParse := sampleParse
  newRequest := fun _ => none
  doErr := none
  resp := ⟨200, utf8 path, body, none⟩
  osTempDir := utf8 "/tmp"
  randoms := [utf8 "123456789"]
  openErr := none
  writeErr := none
  renameErr := none
  chmodErr := none

/-- The environment of `sampleEnv` with the server answering `code` instead. -/
def sampleEnvCode (path : String) (code : Nat) : Env :=
  { sampleEnv path [] with resp := ⟨code, utf8 path, [], none⟩ }

/-- Flags: download to `/dl`, scratch space in `/scratch`. -/
def sampleConfig (clobber useTitle : Bool) : Config :=
  ⟨false, utf8 "/dl", utf8 "/scratch", clobber, useTitle⟩

/-- A filesystem with the two directories and nothing else. -/
def sampleFS : FS :=
  fun p => if p = utf8 "/dl" ∨ p = utf8 "/scratch" then some .dir else none

/-- An item with the given title and enclosure URL. -/
def sampleItem (title url : String) : item :=
  ⟨title, [], [], [], [], some ⟨utf8 url, [], []⟩, []⟩

/-- An item without an `enclosure` element. -/
def bareItem (title : String) : item :=
  ⟨title, [], [], [], [], none, []⟩

/-- The feed of the scenario: a bad enclosure URL, a 404, a success. -/
def scenario : List (Env × item) :=
  [ (sampleEnv "/ep1.mp3" [], sampleItem "one" "http://bad host/ep1.mp3"),
    (sampleEnvCode "/ep2.mp3" 404, sampleItem "two" "http://host/ep2.mp3"),
    (sampleEnv "/ep3.mp3" [104, 105], sampleItem "three" "http://host/ep3.mp3") ]

/-- A feed environment where the fetch succeeds with a 200 and the body decodes
to `f`. -/
def sampleFeedEnv (f : feed) : FeedEnv where
  newRequest := fun u => if u = utf8 "http://bad host/feed" then some ⟨"invalid URL", false⟩ else none
  doErr := none
  StatusCode := 200
  decode := .ok f

/-- A feed with one item. -/
def sampleFeed : feed :=
  ⟨utf8 "2.0", [], some ⟨[], [], none, [sampleItem "three" "http://host/ep3.mp3"]⟩⟩

/-- A well-formed `rss` document without a `channel` element. -/
def channelless : feed :=
  ⟨utf8 "2.0", [], none⟩

/-- The sample filesystem with a file already at `/dl/ep3.mp3`. -/
def sampleFSWithFile : FS :=
  sampleFS.set (utf8 "/dl/ep3.mp3") (some (.file [1, 2, 3] 0o644))

/-- Two items with the same enclosure. -/
def twice : List (Env × item) :=
  [ (sampleEnv "/ep3.mp3" [104, 105], sampleItem "three" "http://host/ep3.mp3"),
    (sampleEnv "/ep3.mp3" [104, 105], sampleItem "three again" "http://host/ep3.mp3") ]

/-- Flags with the scratch space in the download directory itself. -/
def sameDirConfig : Config :=
  ⟨false, utf8 "/dl", utf8 "/dl", false, false⟩

/-- An environment where the server sends `n` bytes for the URL path `path` and
the body stream then breaks. -/
def brokenEnv (path : String) (n : Nat) : Env :=
  { sampleEnv path [] with
    resp := ⟨200, utf8 path, List.replicate n 7, some ⟨"unexpected EOF", false⟩⟩ }

/-! ## The invariant of `filepath.Clean` -/

/-- A buffer of a path that is not rooted: it is empty, or it starts with a byte
that is no separator, and a leading dot is followed by a byte that is no
separator (the buffer is held reversed, so the start is its last entry). -/
def GoodOut (out : List Nat) : Prop :=
  out = [] ∨ ∃ l x, out = l ++ [x] ∧ x ≠ Separator ∧
    (x = dot → ∃ l2 y, l = l2 ++ [y] ∧ y ≠ Separator)

/-- What the state of the loop of `Clean` satisfies throughout: a rooted buffer
starts with the separator and `dotdot` is 1; a buffer that is not rooted is a
`GoodOut`, `dotdot` is not 1, and copying leaves the buffer non-empty. -/
def CleanInv (rooted : Bool) (s : CleanState) : Prop :=
  if rooted then s.dotdot = 1 ∧ ∃ l, s.out = l ++ [Separator]
  else s.dotdot ≠ 1 ∧ GoodOut s.out ∧ (s.copying = true → s.out ≠ [])

/-! ## Theorems -/

/-! ### The path functions on the examples of their documentation -/

/-- Go `filepath.Clean` on cases of its own test table. -/
theorem Clean_examples :
    Clean (utf8 "") = utf8 "." ∧ Clean (utf8 "abc/def/") = utf8 "abc/def" ∧
    Clean (utf8 "abc//def//ghi") = utf8 "abc/def/ghi" ∧ Clean (utf8 "///abc") = utf8 "/abc" ∧
    Clean (utf8 "abc/./def") = utf8 "abc/def" ∧ Clean (utf8 "abc/def/../..") = utf8 "." ∧
    Clean (utf8 "/abc/def/../../..") = utf8 "/" ∧
    Clean (utf8 "abc/def/../../../ghi/jkl/../../../mno") = utf8 "../../mno" ∧
    Clean (utf8 "/../abc") = utf8 "/abc" ∧
    Clean (utf8 "abc/../../././../def") = utf8 "../../def" := by
  decide!

/-- Go `filepath.Base` and `filepath.Ext` on the examples of their documentation. -/
theorem Base_Ext_examples :
    Base (utf8 "/foo/bar/baz.js") = utf8 "baz.js" ∧ Base (utf8 "/foo/bar/baz/") = utf8 "baz" ∧
    Base (utf8 "dev.txt") = utf8 "dev.txt" ∧ Base (utf8 "") = utf8 "." ∧
    Base (utf8 "/") = utf8 "/" ∧ Base (utf8 "../todo.txt") = utf8 "todo.txt" ∧
    Base (utf8 "..") = utf8 ".." ∧ Base (utf8 ".") = utf8 "." ∧
    Ext (utf8 "index") = utf8 "" ∧ Ext (utf8 "index.js") = utf8 ".js" ∧
    Ext (utf8 "main.test.js") = utf8 ".js" ∧ Ext (utf8 "/a.b/c") = utf8 "" ∧
    Join (utf8 "a/b") (utf8 "../../../xyz") = utf8 "../xyz" ∧
    Join (utf8 "a") (utf8 "") = utf8 "a" := by
  decide!


/-- C1 (code at the failing input): in the scenario of the three entries the
worker logs one failure line only; the 404 is logged as `already exists` with an
empty filename, because the status of a non-200 response carries the `err`
variable, which is nil there. -/
theorem C1_non200_logged_as_already_exists :
    (downloadItems (sampleConfig false false) scenario sampleFS).log =
      [ .failed (utf8 "one") "bad url", .alreadyExists [], .downloaded (utf8 "ep3.mp3") ] ∧
    ((downloadItems (sampleConfig false false) scenario sampleFS).log.filter
      LogLine.isFailure).length = 1 ∧
    (downloadItem (sampleConfig false false) (sampleEnvCode "/ep2.mp3" 404) sampleFS
      (sampleItem "two" "http://host/ep2.mp3")).result =
      .ok { name := utf8 "two", err := none,
            msg := "unexpected response from the server: 404" } := by
  decide!

/-- C7 (code at the failing input): for an item that has no `enclosure` element
`downloadItem` returns no status; reading `item.Enclosure.URL` panics, whatever
the flags, the environment and the filesystem. -/
theorem C7_nil_enclosure_panics (cfg : Config) (env : Env) (fs : FS) (title : String) :
    (downloadItem cfg env fs (bareItem title)).result =
      .error "invalid memory address or nil pointer dereference" ∧
    (downloadItems cfg [(env, bareItem title), (sampleEnv "/ep3.mp3" [],
      sampleItem "three" "http://host/ep3.mp3")] fs).exit = .panic ∧
    (downloadItems cfg [(env, bareItem title), (sampleEnv "/ep3.mp3" [],
      sampleItem "three" "http://host/ep3.mp3")] fs).log = [] := by
  refine ⟨rfl, rfl, rfl⟩

/-- C8 (code at the failing inputs): `fetchFeed` panics on a feed URL from which
no request can be built and on an `rss` document without a channel, and the loop
of `main` then never reaches the next feed URL, whose item is not sent. -/
theorem C8_fetchFeed_panics (cfg : Config) :
    fetchFeed cfg (sampleFeedEnv sampleFeed) (utf8 "http://bad host/feed") = .error "invalid URL" ∧
    fetchFeed cfg (sampleFeedEnv channelless) (utf8 "http://host/feed") =
      .error "invalid memory address or nil pointer dereference" ∧
    fetchFeeds cfg [(sampleFeedEnv sampleFeed, utf8 "http://host/feed")] =
      .ok ([], [sampleItem "three" "http://host/ep3.mp3"]) ∧
    fetchFeeds cfg [(sampleFeedEnv channelless, utf8 "http://host/empty"),
      (sampleFeedEnv sampleFeed, utf8 "http://host/feed")] =
      .error "invalid memory address or nil pointer dereference" ∧
    fetchFeeds cfg [(sampleFeedEnv sampleFeed, utf8 "http://bad host/feed"),
      (sampleFeedEnv sampleFeed, utf8 "http://host/feed")] = .error "invalid URL" := by
  refine ⟨?_, ?_, ?_, ?_, ?_⟩ <;> rfl

/-- An item with an enclosure gets a status, with `fatal` set exactly when the
failed call is one of the three fatal ones. -/
theorem fatal_iff_of_enclosure (cfg : Config) (env : Env) (fs : FS) (it : item) (encl : enclosure)
    (h : it.Enclosure = some encl) :
    ∃ s, (downloadItem cfg env fs it).result = .ok s ∧
      (s.fatal = true ↔
        failedStep (downloadItem cfg env fs it).trace = some .tempFile ∨
        failedStep (downloadItem cfg env fs it).trace = some .rename ∨
        failedStep (downloadItem cfg env fs it).trace = some .chmod) ∧
      (failedStep (downloadItem cfg env fs it).trace = some .urlParse ∨
        failedStep (downloadItem cfg env fs it).trace = some .newRequest ∨
        failedStep (downloadItem cfg env fs it).trace = some .httpDo ∨
        failedStep (downloadItem cfg env fs it).trace = some .response ∨
        failedStep (downloadItem cfg env fs it).trace = some .copy → s.fatal = false) := by
  unfold downloadItem downloadURL
  simp only [h]
  repeat' split
  all_goals simp_all [failedStep, Event.failed, Event.step, List.find?]

/-- C2: for every item and every result of every step, the status that
`downloadItem` returns has `fatal` set exactly when the call that failed is the
creation of the temp file, the rename onto the final path or the chmod of the
final file; when the failed call is the URL parse, the construction of the
request, the GET (timeout or transport error), a non-200 response or the body
copy, `fatal` is false.  A status is returned whenever the item has an
enclosure. -/
theorem C2_fatal_iff_failed_step (cfg : Config) (env : Env) (fs : FS) (it : item) :
    (∀ s, (downloadItem cfg env fs it).result = .ok s →
      (s.fatal = true ↔
        failedStep (downloadItem cfg env fs it).trace = some .tempFile ∨
        failedStep (downloadItem cfg env fs it).trace = some .rename ∨
        failedStep (downloadItem cfg env fs it).trace = some .chmod) ∧
      (failedStep (downloadItem cfg env fs it).trace = some .urlParse ∨
        failedStep (downloadItem cfg env fs it).trace = some .newRequest ∨
        failedStep (downloadItem cfg env fs it).trace = some .httpDo ∨
        failedStep (downloadItem cfg env fs it).trace = some .response ∨
        failedStep (downloadItem cfg env fs it).trace = some .copy → s.fatal = false)) ∧
    (∀ encl, it.Enclosure = some encl → ∃ s, (downloadItem cfg env fs it).result = .ok s) := by
  refine ⟨fun s hs => ?_, fun encl hencl => ?_⟩
  · cases hencl : it.Enclosure with
    | none => simp [downloadItem, downloadURL, hencl] at hs
    | some encl =>
      obtain ⟨s2, hs2, h1, h2⟩ := fatal_iff_of_enclosure cfg env fs it encl hencl
      rw [hs2] at hs
      simp only [Except.ok.injEq] at hs
      subst hs
      exact ⟨h1, h2⟩
  · obtain ⟨s, hs, _⟩ := fatal_iff_of_enclosure cfg env fs it encl hencl
    exact ⟨s, hs⟩

/-- C2 at a concrete input: the chmod fails, the status is fatal. -/
theorem C2_fatal_iff_failed_step_witness :
    ∃ s, (downloadItem (sampleConfig false false)
        { sampleEnv "/ep3.mp3" [104, 105] with chmodErr := some ⟨"operation not permitted", false⟩ }
        sampleFS (sampleItem "three" "http://host/ep3.mp3")).result = .ok s ∧ s.fatal = true := by
  obtain ⟨hiff, hret⟩ := C2_fatal_iff_failed_step (sampleConfig false false)
    { sampleEnv "/ep3.mp3" [104, 105] with chmodErr := some ⟨"operation not permitted", false⟩ }
    sampleFS (sampleItem "three" "http://host/ep3.mp3")
  obtain ⟨s, hs⟩ := hret ⟨utf8 "http://host/ep3.mp3", [], []⟩ rfl
  exact ⟨s, hs, ((hiff s hs).1).2 (Or.inr (Or.inr (by decide!)))⟩

/-- C3: when the GET answers 200, the final path exists and clobbering is off,
`downloadItem` returns `downloaded = false` with the computed filename, no error
and `fatal = false`; it leaves the filesystem as it was, and it neither reads the
body nor creates a temp file: after the response it only stats the final path and
closes the body. -/
theorem C3_existing_file_short_circuit (cfg : Config) (env : Env) (fs : FS) (it : item)
    (encl : enclosure) (url : GoString)
    (hencl : it.Enclosure = some encl) (hparse : env.urlParse encl.URL = .ok url)
    (hreq : env.newRequest url = none) (hdo : env.doErr = none)
    (hcode : env.resp.StatusCode = 200) (hclobber : cfg.clobber = false)
    (hexists : fs (Join cfg.downloadDir (filenameOf cfg it env.resp)) ≠ none) :
    (downloadItem cfg env fs it).result =
      .ok { name := truncate (utf8 it.Title) 60, filename := filenameOf cfg it env.resp,
            downloaded := false, err := none, msg := "", fatal := false } ∧
    (downloadItem cfg env fs it).fs = fs ∧
    (downloadItem cfg env fs it).trace =
      [.urlParse true, .newRequest true, .httpDo true, .response 200,
        .stat (Join cfg.downloadDir (filenameOf cfg it env.resp)) true, .closeBody] ∧
    (∀ e ∈ (downloadItem cfg env fs it).trace, e.touchesBodyOrTemp = false) := by
  have key : downloadItem cfg env fs it =
      ⟨.ok { name := truncate (utf8 it.Title) 60, filename := filenameOf cfg it env.resp }, fs,
        [.urlParse true, .newRequest true, .httpDo true, .response 200,
          .stat (Join cfg.downloadDir (filenameOf cfg it env.resp)) true, .closeBody]⟩ := by
    unfold downloadItem downloadURL
    simp [hencl, hparse, hreq, hdo, hcode, hclobber, hexists, isTimeout]
  rw [key]
  refine ⟨rfl, rfl, rfl, ?_⟩
  intro e he
  simp at he
  rcases he with rfl | rfl | rfl | rfl | rfl | rfl <;> rfl

/-- C3 at a concrete input: the file `/dl/ep3.mp3` is there, so nothing is
downloaded and the file keeps its three bytes. -/
theorem C3_existing_file_short_circuit_witness :
    (downloadItem (sampleConfig false false) (sampleEnv "/ep3.mp3" [104, 105]) sampleFSWithFile
      (sampleItem "three" "http://host/ep3.mp3")).result =
      .ok { name := utf8 "three", filename := utf8 "ep3.mp3" } ∧
    (downloadItem (sampleConfig false false) (sampleEnv "/ep3.mp3" [104, 105]) sampleFSWithFile
      (sampleItem "three" "http://host/ep3.mp3")).fs (utf8 "/dl/ep3.mp3") =
      some (.file [1, 2, 3] 0o644) := by
  have h := C3_existing_file_short_circuit (sampleConfig false false)
    (sampleEnv "/ep3.mp3" [104, 105]) sampleFSWithFile (sampleItem "three" "http://host/ep3.mp3")
    ⟨utf8 "http://host/ep3.mp3", [], []⟩ (utf8 "http://host/ep3.mp3")
    rfl (by decide!) rfl rfl rfl rfl (by decide!)
  refine ⟨?_, ?_⟩
  · rw [h.1]; decide!
  · rw [h.2.1]; decide!

/-- The loop of `escapeTitle` from any accumulator. -/
theorem escape_foldl (l acc : List Char) :
    l.foldl (fun escaped r => if reserved r then escaped ++ ['_'] else escaped ++ [r]) acc =
      acc ++ l.map (fun r => if reserved r then '_' else r) := by
  induction l generalizing acc with
  | nil => simp
  | cons r l ih =>
    simp only [List.foldl_cons, List.map_cons, ih]
    split <;> simp

/-- The runes of an escaped title: each reserved rune replaced, the others kept. -/
theorem escapeTitle_data (s : String) :
    (escapeTitle s).data = s.data.map (fun r => if reserved r then '_' else r) := by
  simp [escapeTitle, escape_foldl]

/-- The reserved runes are the ten characters of the `case` list. -/
theorem reserved_iff (r : Char) :
    reserved r = true ↔ r ∈ ['/', '\\', '?', '%', '*', ':', '|', '"', '<', '>'] := by
  simp [reserved, or_assoc]

/-- C9: in title mode the filename is the escaped title followed by the extension
of the final URL path: it is the filename of every status without error after a
200 and the name under the download directory that is checked; the escaped title
has the runes of the title in order with each of the ten reserved characters
replaced by `_`, so it has as many runes as the title and no reserved one. -/
theorem C9_title_mode_filename (cfg : Config) (env : Env) (fs : FS) (it : item)
    (htitle : cfg.useTitleAsFilename = true) :
    filenameOf cfg it env.resp = utf8 (escapeTitle it.Title) ++ Ext env.resp.Path ∧
    (∀ s, (downloadItem cfg env fs it).result = .ok s → s.err = none →
      env.resp.StatusCode = 200 →
      s.filename = utf8 (escapeTitle it.Title) ++ Ext env.resp.Path) ∧
    (∀ path found, Event.stat path found ∈ (downloadItem cfg env fs it).trace →
      path = Join cfg.downloadDir (utf8 (escapeTitle it.Title) ++ Ext env.resp.Path)) ∧
    (escapeTitle it.Title).data =
      it.Title.data.map (fun r => if r ∈ ['/', '\\', '?', '%', '*', ':', '|', '"', '<', '>']
        then '_' else r) ∧
    (escapeTitle it.Title).length = it.Title.length ∧
    (∀ r ∈ (escapeTitle it.Title).data,
      r ∉ ['/', '\\', '?', '%', '*', ':', '|', '"', '<', '>']) := by
  have hname : filenameOf cfg it env.resp = utf8 (escapeTitle it.Title) ++ Ext env.resp.Path := by
    simp [filenameOf, htitle]
  refine ⟨hname, ?_, ?_, ?_, ?_, ?_⟩
  · intro s hs herr hcode
    unfold downloadItem at hs
    simp only [hname] at hs
    repeat' (split at hs)
    all_goals simp_all [isTimeout]
    all_goals (subst hs; simp_all)
  · intro path found hmem
    unfold downloadItem at hmem
    simp only [hname] at hmem
    repeat' (split at hmem)
    all_goals simp_all
  · rw [escapeTitle_data]
    apply List.map_congr_left
    intro r _
    exact if_congr (reserved_iff r) rfl rfl
  · show (escapeTitle it.Title).data.length = it.Title.data.length
    rw [escapeTitle_data, List.length_map]
  · intro r hr
    rw [escapeTitle_data] at hr
    simp only [List.mem_map] at hr
    obtain ⟨a, _, rfl⟩ := hr
    by_cases ha : reserved a = true
    · simp only [ha, if_true]; decide
    · simp only [ha]
      intro h
      exact ha ((reserved_iff a).2 h)

/-- C9 at a concrete input: the title `a/b: c?` and the URL path `/x.y/ep.mp3`
give the filename `a_b_ c_.mp3`. -/
theorem C9_title_mode_filename_witness :
    filenameOf (sampleConfig false true) (sampleItem "a/b: c?" "http://host/x.y/ep.mp3")
      (sampleEnv "/x.y/ep.mp3" []).resp = utf8 "a_b_ c_.mp3" ∧
    (escapeTitle "a/b: c?").length = 7 := by
  have h := C9_title_mode_filename (sampleConfig false true) (sampleEnv "/x.y/ep.mp3" []) sampleFS
    (sampleItem "a/b: c?" "http://host/x.y/ep.mp3") rfl
  refine ⟨?_, ?_⟩
  · rw [h.1]; decide!
  · exact h.2.2.2.2.1

/-! ### The filesystem steps -/

theorem FS.set_same (fs : FS) (p : GoString) (n : Option Node) : (fs.set p n) p = n := by
  simp [FS.set]

theorem FS.set_other (fs : FS) (p q : GoString) (n : Option Node) (h : q ≠ p) :
    (fs.set p n) q = fs q := by
  simp [FS.set, h]

/-- The name that `ioutil.TempFile` opens was free, is built from one of the
random strings, and the new state is the old one with an empty file there. -/
theorem tryNames_ok (openErr : Option GoError) (fs : FS) (pre suf : GoString)
    (rs : List GoString) (name : GoString) (fs1 : FS)
    (h : tryNames openErr fs pre suf rs = .ok (name, fs1)) :
    fs name = none ∧ fs1 = fs.set name (some (.file [] 0o600)) ∧
      ∃ r ∈ rs, name = pre ++ r ++ suf := by
  induction rs with
  | nil => simp [tryNames] at h
  | cons r rs ih =>
    simp only [tryNames] at h
    split at h
    · obtain ⟨h1, h2, r2, hr2, h3⟩ := ih h
      exact ⟨h1, h2, r2, List.mem_cons_of_mem _ hr2, h3⟩
    · rename_i hfree
      split at h
      · simp at h
      · simp only [Except.ok.injEq, Prod.mk.injEq] at h
        obtain ⟨rfl, rfl⟩ := h
        refine ⟨?_, rfl, r, List.mem_cons_self _ _, rfl⟩
        simpa using hfree

theorem TempFile_ok (env : Env) (fs : FS) (dir pattern name : GoString) (fs1 : FS)
    (h : TempFile env fs dir pattern = .ok (name, fs1)) :
    fs name = none ∧ fs1 = fs.set name (some (.file [] 0o600)) ∧
      ∃ r ∈ env.randoms, ∃ ps, prefixAndSuffix pattern = .ok ps ∧
        name = joinPath (if dir = [] then env.osTempDir else dir) ps.1 ++ r ++ ps.2 := by
  unfold TempFile at h
  cases hps : prefixAndSuffix pattern with
  | error err => simp [hps] at h
  | ok ps =>
    simp only [hps] at h
    obtain ⟨h1, h2, r, hr, h3⟩ := tryNames_ok _ _ _ _ _ _ _ h
    exact ⟨h1, h2, r, hr, ps, rfl, h3⟩

theorem Rename_ok (env : Env) (fs fs3 : FS) (old new : GoString)
    (h : Rename env fs old new = .ok fs3) :
    fs3 = (fs.set old none).set new (fs old) := by
  unfold Rename at h
  repeat' (split at h)
  all_goals simp_all

theorem Chmod_ok (env : Env) (fs fs4 : FS) (path : GoString) (mode : Nat)
    (h : Chmod env fs path mode = .ok fs4) (q : GoString) :
    (fs4 q = none ↔ fs q = none) ∧ (q ≠ path → fs4 q = fs q) ∧
      (∀ c m, fs q = some (.file c m) → ∃ m2, fs4 q = some (.file c m2)) := by
  unfold Chmod at h
  cases hce : env.chmodErr with
  | some e => simp [hce] at h
  | none =>
    simp only [hce] at h
    cases hfp : fs path with
    | none =>
      simp only [hfp, Except.ok.injEq] at h
      subst h
      exact ⟨Iff.rfl, fun _ => rfl, fun c m hc => ⟨m, hc⟩⟩
    | some node =>
      cases node with
      | dir =>
        simp only [hfp, Except.ok.injEq] at h
        subst h
        exact ⟨Iff.rfl, fun _ => rfl, fun c m hc => ⟨m, hc⟩⟩
      | file content m0 =>
        simp only [hfp, Except.ok.injEq] at h
        subst h
        by_cases hq : q = path
        · subst hq
          refine ⟨by simp [FS.set, hfp], fun hne => absurd rfl hne, ?_⟩
          intro c m hc
          rw [hfp] at hc
          simp only [Option.some.injEq, Node.file.injEq] at hc
          exact ⟨mode, by simp [FS.set, hc.1]⟩
        · exact ⟨by simp [FS.set, hq], fun _ => by simp [FS.set, hq],
            fun c m hc => ⟨m, by simp [FS.set, hq, hc]⟩⟩

/-- Bytes that the copy leaves in the file are what was there plus a prefix of
the stream. -/
theorem ReadFrom_take (writeErr bodyErr : Option GoError) (body file : List Nat) :
    ∃ k, (ReadFrom writeErr bodyErr body file).1 = file ++ body.take k := by
  induction body generalizing file with
  | nil => exact ⟨0, by simp [ReadFrom]⟩
  | cons b rest ih =>
    simp only [ReadFrom]
    split
    · exact ⟨0, by simp⟩
    · obtain ⟨k, hk⟩ := ih (file ++ [b])
      exact ⟨k + 1, by rw [hk]; simp⟩

/-- A copy without error leaves the whole stream in the file. -/
theorem ReadFrom_whole (writeErr bodyErr : Option GoError) (body file : List Nat)
    (h : (ReadFrom writeErr bodyErr body file).2 = none) :
    (ReadFrom writeErr bodyErr body file).1 = file ++ body := by
  induction body generalizing file with
  | nil => simp [ReadFrom]
  | cons b rest ih =>
    cases writeErr with
    | some err => simp [ReadFrom] at h
    | none =>
      simp only [ReadFrom] at h ⊢
      rw [ih _ h]
      simp

/-- The three ways a call of `downloadItem` can leave the filesystem: untouched
and without a temp file; with a temp file holding a prefix of the body and no
rename; or with the final path holding the body after the one successful rename.
Only the last can report `downloaded`, and it does so after the chmod. -/
theorem downloadItem_shape (cfg : Config) (env : Env) (fs : FS) (it : item) :
    ((downloadItem cfg env fs it).fs = fs ∧
      (∀ t, Event.tempFile (some t) ∉ (downloadItem cfg env fs it).trace) ∧
      (∀ a b, Event.rename a b true ∉ (downloadItem cfg env fs it).trace) ∧
      (∀ s, (downloadItem cfg env fs it).result = .ok s → s.downloaded = false)) ∨
    (∃ t k, fs t = none ∧
      (∃ r ∈ env.randoms, ∃ ps,
        prefixAndSuffix (truncate (filenameOf cfg it env.resp) 20) = .ok ps ∧
        t = joinPath (if cfg.tempDir = [] then env.osTempDir else cfg.tempDir) ps.1 ++ r ++
          ps.2) ∧
      (downloadItem cfg env fs it).fs = fs.set t (some (.file (env.resp.Body.take k) 0o600)) ∧
      Event.tempFile (some t) ∈ (downloadItem cfg env fs it).trace ∧
      (∀ t2, Event.tempFile (some t2) ∈ (downloadItem cfg env fs it).trace → t2 = t) ∧
      (∀ a b, Event.rename a b true ∉ (downloadItem cfg env fs it).trace) ∧
      (∀ s, (downloadItem cfg env fs it).result = .ok s → s.downloaded = false)) ∨
    (∃ t m, fs t = none ∧
      (cfg.clobber = true ∨ fs (Join cfg.downloadDir (filenameOf cfg it env.resp)) = none) ∧
      (downloadItem cfg env fs it).fs =
        fs.set (Join cfg.downloadDir (filenameOf cfg it env.resp))
          (some (.file env.resp.Body m)) ∧
      (∀ a b, Event.rename a b true ∈ (downloadItem cfg env fs it).trace →
        a = t ∧ b = Join cfg.downloadDir (filenameOf cfg it env.resp)) ∧
      (∀ Q, renamesOnto Q (downloadItem cfg env fs it).trace =
        if Q = Join cfg.downloadDir (filenameOf cfg it env.resp) then 1 else 0) ∧
      (∀ s, (downloadItem cfg env fs it).result = .ok s → s.downloaded = true → m = 0o644)) := by
  cases hencl : it.Enclosure with
  | none => left; simp [downloadItem, downloadURL, hencl]
  | some encl =>
  cases hparse : env.urlParse encl.URL with
  | error err => left; simp [downloadItem, downloadURL, hencl, hparse]
  | ok url =>
  cases hreq : env.newRequest url with
  | some err => left; simp [downloadItem, downloadURL, hencl, hparse, hreq]
  | none =>
  cases hdo : env.doErr with
  | some e =>
    left
    simp only [downloadItem, downloadURL, hencl, hparse, hreq, hdo, isTimeout]
    split <;> simp
  | none =>
  have htime : isTimeout none = false := rfl
  by_cases hcode : env.resp.StatusCode = 200
  swap
  · left; simp [downloadItem, downloadURL, hencl, hparse, hreq, htime, hdo, hcode]
  by_cases hskip : (!cfg.clobber && decide (fs (Join cfg.downloadDir (filenameOf cfg it env.resp)) ≠ none)) = true
  · left
    simp only [downloadItem, downloadURL, hencl, hparse, hreq, htime, hdo, hcode, hskip]
    simp
  cases htemp : TempFile env fs cfg.tempDir (truncate (filenameOf cfg it env.resp) 20) with
  | error err =>
    left
    simp only [downloadItem, downloadURL, hencl, hparse, hreq, htime, hdo, hcode, hskip, htemp]
    simp
  | ok res =>
  obtain ⟨t, fs1⟩ := res
  obtain ⟨hfree, hfs1, hname⟩ := TempFile_ok _ _ _ _ _ _ htemp
  obtain ⟨k, hk⟩ := ReadFrom_take env.writeErr env.resp.BodyErr env.resp.Body []
  simp only [List.nil_append] at hk
  have hfs2 : fs1.set t (some (.file (ReadFrom env.writeErr env.resp.BodyErr env.resp.Body []).1 0o600)) =
      fs.set t (some (.file (env.resp.Body.take k) 0o600)) := by
    funext q
    simp only [hfs1, hk, FS.set]
    split <;> rfl
  cases hcopy : (ReadFrom env.writeErr env.resp.BodyErr env.resp.Body []).2 with
  | some err =>
    right; left
    refine ⟨t, k, hfree, hname, ?_, ?_, ?_, ?_, ?_⟩
    · simp only [downloadItem, downloadURL, hencl, hparse, hreq, htime, hdo, hcode, hskip, htemp, hcopy]
      simpa using hfs2
    · simp only [downloadItem, downloadURL, hencl, hparse, hreq, htime, hdo, hcode, hskip, htemp, hcopy]
      simp
    · simp only [downloadItem, downloadURL, hencl, hparse, hreq, htime, hdo, hcode, hskip, htemp, hcopy]
      simp
    · simp only [downloadItem, downloadURL, hencl, hparse, hreq, htime, hdo, hcode, hskip, htemp, hcopy]
      simp
    · simp only [downloadItem, downloadURL, hencl, hparse, hreq, htime, hdo, hcode, hskip, htemp, hcopy]
      simp
  | none =>
  have hwhole : env.resp.Body.take k = env.resp.Body := by
    rw [← hk, ReadFrom_whole _ _ _ _ hcopy, List.nil_append]
  rw [hwhole] at hfs2
  have hclob : cfg.clobber = true ∨ fs (Join cfg.downloadDir (filenameOf cfg it env.resp)) = none := by
    cases hc : cfg.clobber with
    | true => exact Or.inl rfl
    | false =>
      right
      simpa [hc] using hskip
  cases hren : Rename env (fs.set t (some (.file env.resp.Body 0o600))) t
      (Join cfg.downloadDir (filenameOf cfg it env.resp)) with
  | error err =>
    right; left
    refine ⟨t, env.resp.Body.length, hfree, hname, ?_, ?_, ?_, ?_, ?_⟩
    · simp only [downloadItem, downloadURL, hencl, hparse, hreq, htime, hdo, hcode, hskip, htemp, hcopy, hfs2, hren]
      simp
    · simp only [downloadItem, downloadURL, hencl, hparse, hreq, htime, hdo, hcode, hskip, htemp, hcopy, hfs2, hren]
      simp
    · simp only [downloadItem, downloadURL, hencl, hparse, hreq, htime, hdo, hcode, hskip, htemp, hcopy, hfs2, hren]
      simp
    · simp only [downloadItem, downloadURL, hencl, hparse, hreq, htime, hdo, hcode, hskip, htemp, hcopy, hfs2, hren]
      simp
    · simp only [downloadItem, downloadURL, hencl, hparse, hreq, htime, hdo, hcode, hskip, htemp, hcopy, hfs2, hren]
      simp
  | ok fs3 =>
  have hfs3 : fs3 = fs.set (Join cfg.downloadDir (filenameOf cfg it env.resp))
      (some (.file env.resp.Body 0o600)) := by
    rw [Rename_ok _ _ _ _ _ hren]
    funext q
    simp only [FS.set]
    by_cases hq : q = Join cfg.downloadDir (filenameOf cfg it env.resp)
    · simp [hq]
    · by_cases hqt : q = t
      · simp [hq, hqt, hfree]
      · simp [hq, hqt]
  right; right
  cases hch : Chmod env fs3 (Join cfg.downloadDir (filenameOf cfg it env.resp)) 0o644 with
  | error err =>
    refine ⟨t, 0o600, hfree, hclob, ?_, ?_, ?_, ?_⟩
    · simp only [downloadItem, downloadURL, hencl, hparse, hreq, htime, hdo, hcode, hskip, htemp, hcopy, hfs2, hren, hch]
      simpa using hfs3
    · simp only [downloadItem, downloadURL, hencl, hparse, hreq, htime, hdo, hcode, hskip, htemp, hcopy, hfs2, hren, hch]
      simp
    · intro Q
      simp only [downloadItem, downloadURL, hencl, hparse, hreq, htime, hdo, hcode, hskip, htemp, hcopy, hfs2, hren, hch]
      have hcomm : (Join cfg.downloadDir (filenameOf cfg it env.resp) = Q) ↔
          (Q = Join cfg.downloadDir (filenameOf cfg it env.resp)) := eq_comm
      simp [renamesOnto, Event.renamedOnto, List.countP_cons, hcomm]
    · simp only [downloadItem, downloadURL, hencl, hparse, hreq, htime, hdo, hcode, hskip, htemp, hcopy, hfs2, hren, hch]
      simp
  | ok fs4 =>
    have hfs4 : fs4 = fs.set (Join cfg.downloadDir (filenameOf cfg it env.resp))
        (some (.file env.resp.Body 0o644)) := by
      unfold Chmod at hch
      cases hce : env.chmodErr with
      | some e => simp [hce] at hch
      | none =>
        simp only [hce, hfs3, FS.set_same, Except.ok.injEq] at hch
        rw [← hch]
        funext q
        simp only [FS.set]
        split <;> rfl
    refine ⟨t, 0o644, hfree, hclob, ?_, ?_, ?_, fun _ _ _ => rfl⟩
    · simp only [downloadItem, downloadURL, hencl, hparse, hreq, htime, hdo, hcode, hskip, htemp, hcopy, hfs2, hren, hch]
      simpa using hfs4
    · simp only [downloadItem, downloadURL, hencl, hparse, hreq, htime, hdo, hcode, hskip, htemp, hcopy, hfs2, hren, hch]
      simp
    · intro Q
      simp only [downloadItem, downloadURL, hencl, hparse, hreq, htime, hdo, hcode, hskip, htemp, hcopy, hfs2, hren, hch]
      have hcomm : (Join cfg.downloadDir (filenameOf cfg it env.resp) = Q) ↔
          (Q = Join cfg.downloadDir (filenameOf cfg it env.resp)) := eq_comm
      simp [renamesOnto, Event.renamedOnto, List.countP_cons, hcomm]

/-! ### Renames in a run -/

theorem renamesOnto_eq_zero (Q : GoString) (tr : List Event)
    (h : ∀ a b, Event.rename a b true ∉ tr) : renamesOnto Q tr = 0 := by
  unfold renamesOnto
  rw [List.countP_eq_zero]
  intro e he
  cases e with
  | rename a b ok =>
    cases ok with
    | true => exact absurd he (h a b)
    | false => simp [Event.renamedOnto]
  | _ => simp [Event.renamedOnto]

theorem renamesOnto_append (Q : GoString) (tr1 tr2 : List Event) :
    renamesOnto Q (tr1 ++ tr2) = renamesOnto Q tr1 + renamesOnto Q tr2 := by
  simp [renamesOnto, List.countP_append]

/-- One call renames onto a path at most once. -/
theorem downloadItem_renames_le (cfg : Config) (env : Env) (fs : FS) (it : item) (Q : GoString) :
    renamesOnto Q (downloadItem cfg env fs it).trace ≤ 1 := by
  rcases downloadItem_shape cfg env fs it with ⟨_, _, h, _⟩ | ⟨t, k, _, _, _, _, _, h, _⟩ |
    ⟨t, m, _, _, _, _, h, _⟩
  · rw [renamesOnto_eq_zero Q _ h]; exact Nat.zero_le _
  · rw [renamesOnto_eq_zero Q _ h]; exact Nat.zero_le _
  · rw [h Q]; split <;> simp

/-- A path that holds something before a call holds something after it. -/
theorem downloadItem_keeps (cfg : Config) (env : Env) (fs : FS) (it : item) (Q : GoString)
    (hQ : fs Q ≠ none) : (downloadItem cfg env fs it).fs Q ≠ none := by
  rcases downloadItem_shape cfg env fs it with ⟨h, _, _⟩ | ⟨t, k, _, _, h, _, _, _⟩ |
    ⟨t, m, _, _, h, _, _⟩
  · rw [h]; exact hQ
  · rw [h]; simp only [FS.set]; split <;> simp [hQ]
  · rw [h]; simp only [FS.set]; split <;> simp [hQ]

/-- A path that a call renamed onto holds something after the call. -/
theorem downloadItem_renamed_exists (cfg : Config) (env : Env) (fs : FS) (it : item)
    (Q : GoString) (hQ : renamesOnto Q (downloadItem cfg env fs it).trace ≠ 0) :
    (downloadItem cfg env fs it).fs Q ≠ none := by
  rcases downloadItem_shape cfg env fs it with ⟨_, _, h, _⟩ | ⟨t, k, _, _, _, _, _, h, _⟩ |
    ⟨t, m, _, _, hfs, _, h, _⟩
  · exact absurd (renamesOnto_eq_zero Q _ h) hQ
  · exact absurd (renamesOnto_eq_zero Q _ h) hQ
  · rw [h Q] at hQ
    have hQP : Q = Join cfg.downloadDir (filenameOf cfg it env.resp) := by
      by_contra hne
      simp [hne] at hQ
    rw [hfs, hQP]
    simp [FS.set]

/-- Without clobbering, a call does not rename onto a path that holds something. -/
theorem downloadItem_no_rename_onto_existing (cfg : Config) (env : Env) (fs : FS) (it : item)
    (Q : GoString) (hclobber : cfg.clobber = false) (hQ : fs Q ≠ none) :
    renamesOnto Q (downloadItem cfg env fs it).trace = 0 := by
  rcases downloadItem_shape cfg env fs it with ⟨_, _, h, _⟩ | ⟨t, k, _, _, _, _, _, h, _⟩ |
    ⟨t, m, _, hfree, _, _, h, _⟩
  · exact renamesOnto_eq_zero Q _ h
  · exact renamesOnto_eq_zero Q _ h
  · rw [h Q]
    rcases hfree with hc | hnone
    · rw [hclobber] at hc; exact absurd hc (by decide)
    · have hne : Q ≠ Join cfg.downloadDir (filenameOf cfg it env.resp) := by
        intro hQP; rw [hQP] at hQ; exact hQ hnone
      simp [hne]

/-- Without clobbering, a worker never renames onto a path that holds something
when it starts. -/
theorem downloadItems_no_rename_onto_existing (cfg : Config) (items : List (Env × item))
    (fs : FS) (Q : GoString) (hclobber : cfg.clobber = false) (hQ : fs Q ≠ none) :
    renamesOnto Q (downloadItems cfg items fs).trace = 0 := by
  induction items generalizing fs with
  | nil => simp [downloadItems, renamesOnto]
  | cons x items ih =>
    obtain ⟨env, it⟩ := x
    have h0 := downloadItem_no_rename_onto_existing cfg env fs it Q hclobber hQ
    have hk := downloadItem_keeps cfg env fs it Q hQ
    simp only [downloadItems]
    split
    · exact h0
    · split
      · exact h0
      · simp only [renamesOnto_append, h0, ih _ hk]

/-- C6 (as amended): with clobbering off, the items that one worker processes one
after another produce at most one successful rename onto any given path, also
when several items resolve to the same filename. -/
theorem C6_no_clobber_at_most_one_rename (cfg : Config) (items : List (Env × item)) (fs : FS)
    (Q : GoString) (hclobber : cfg.clobber = false) :
    renamesOnto Q (downloadItems cfg items fs).trace ≤ 1 := by
  induction items generalizing fs with
  | nil => simp [downloadItems, renamesOnto]
  | cons x items ih =>
    obtain ⟨env, it⟩ := x
    have h1 := downloadItem_renames_le cfg env fs it Q
    simp only [downloadItems]
    split
    · exact h1
    · split
      · exact h1
      · rw [renamesOnto_append]
        by_cases h0 : renamesOnto Q (downloadItem cfg env fs it).trace = 0
        · rw [h0, Nat.zero_add]; exact ih _
        · have hex := downloadItem_renamed_exists cfg env fs it Q h0
          rw [downloadItems_no_rename_onto_existing cfg items _ Q hclobber hex]
          exact h1

/-- C6 (as amended) at a concrete input: the second of two items with the same
filename is skipped, one rename onto `/dl/ep3.mp3`. -/
theorem C6_no_clobber_at_most_one_rename_witness :
    renamesOnto (utf8 "/dl/ep3.mp3") (downloadItems (sampleConfig false false) twice sampleFS).trace
      ≤ 1 ∧
    (downloadItems (sampleConfig false false) twice sampleFS).log =
      [.downloaded (utf8 "ep3.mp3"), .alreadyExists (utf8 "ep3.mp3")] :=
  ⟨C6_no_clobber_at_most_one_rename (sampleConfig false false) twice sampleFS (utf8 "/dl/ep3.mp3") rfl,
    by decide!⟩

/-- C6 (counterexample): with clobbering on, two items with the same filename are
both renamed onto `/dl/ep3.mp3`. -/
theorem C6_clobber_renames_twice :
    renamesOnto (utf8 "/dl/ep3.mp3") (downloadItems (sampleConfig true false) twice sampleFS).trace
      = 2 ∧
    ¬ renamesOnto (utf8 "/dl/ep3.mp3")
      (downloadItems (sampleConfig true false) twice sampleFS).trace ≤ 1 := by
  decide!

/-- In every call in which no rename succeeds, every path other than the one of
the temp file holds what it held before; the temp file is a new file that
`ioutil.TempFile` named in the temp directory, and it holds a prefix of the
body. -/
theorem only_temp_file_changes (cfg : Config) (env : Env) (fs : FS) (it : item)
    (hnorename : ∀ a b, Event.rename a b true ∉ (downloadItem cfg env fs it).trace) :
    (∀ q, (∀ t, Event.tempFile (some t) ∈ (downloadItem cfg env fs it).trace → q ≠ t) →
      (downloadItem cfg env fs it).fs q = fs q) ∧
    (∀ t, Event.tempFile (some t) ∈ (downloadItem cfg env fs it).trace →
      fs t = none ∧
      (∃ r ∈ env.randoms, ∃ ps,
        prefixAndSuffix (truncate (filenameOf cfg it env.resp) 20) = .ok ps ∧
        t = joinPath (if cfg.tempDir = [] then env.osTempDir else cfg.tempDir) ps.1 ++ r ++
          ps.2) ∧
      ∃ k, (downloadItem cfg env fs it).fs t = some (.file (env.resp.Body.take k) 0o600)) := by
  rcases downloadItem_shape cfg env fs it with ⟨h, hnt, _⟩ | ⟨t, k, hfree, hname, h, hmem, ht, _⟩ |
    ⟨t, m, _, _, _, _, h, _⟩
  · exact ⟨fun q _ => by rw [h], fun t ht => absurd ht (hnt t)⟩
  · refine ⟨fun q hq => ?_, fun t2 ht2 => ?_⟩
    · rw [h, FS.set_other _ _ _ _ (hq t hmem)]
    · rw [ht t2 ht2]
      exact ⟨hfree, hname, k, by rw [h, FS.set_same]⟩
  · exfalso
    have h1 := h (Join cfg.downloadDir (filenameOf cfg it env.resp))
    rw [renamesOnto_eq_zero _ _ hnorename] at h1
    simp at h1

/-- With the scratch space in `/scratch`, a copy that breaks after three bytes
leaves the final path empty and the three bytes in the temp file. -/
theorem only_temp_file_changes_example :
    (downloadItem (sampleConfig false false) (brokenEnv "/ep3.mp3" 3) sampleFS
      (sampleItem "three" "http://host/ep3.mp3")).fs (utf8 "/dl/ep3.mp3") = none ∧
    ∃ k, (downloadItem (sampleConfig false false) (brokenEnv "/ep3.mp3" 3) sampleFS
      (sampleItem "three" "http://host/ep3.mp3")).fs (utf8 "/scratch/ep3.mp3123456789") =
        some (.file ((brokenEnv "/ep3.mp3" 3).resp.Body.take k) 0o600) := by
  have htr : (downloadItem (sampleConfig false false) (brokenEnv "/ep3.mp3" 3) sampleFS
      (sampleItem "three" "http://host/ep3.mp3")).trace =
      [.urlParse true, .newRequest true, .httpDo true, .response 200,
        .stat (utf8 "/dl/ep3.mp3") false,
        .tempFile (some (utf8 "/scratch/ep3.mp3123456789")),
        .copy false, .closeBody] := by
    decide!
  have h := only_temp_file_changes (sampleConfig false false) (brokenEnv "/ep3.mp3" 3) sampleFS
    (sampleItem "three" "http://host/ep3.mp3")
    (by rw [htr]; intro a b hab; simp at hab)
  refine ⟨?_, ?_⟩
  · rw [h.1 (utf8 "/dl/ep3.mp3")]
    · decide!
    · rw [htr]
      intro t ht
      simp only [List.mem_cons, Event.tempFile.injEq, Option.some.injEq, List.mem_singleton,
        reduceCtorEq, false_or, or_false, List.not_mem_nil] at ht
      rw [ht]
      decide!
  · exact (h.2 (utf8 "/scratch/ep3.mp3123456789") (by rw [htr]; simp)).2.2

/-- C5 (code at the failing input): with the scratch space set to the download
directory, a copy that breaks after three bytes leaves those bytes in a file of
the download directory, and no rename has happened; when the filename is twenty
letters and nine digits and the random string is those digits, that file is at
the final path itself, which held nothing before the call. -/
theorem C5_partial_download_in_download_dir :
    (downloadItem sameDirConfig (brokenEnv "/ep3.mp3" 3) sampleFS
      (sampleItem "three" "http://host/ep3.mp3")).result =
      .ok { name := utf8 "three", msg := "download failed",
            err := some ⟨"unexpected EOF", false⟩ } ∧
    (downloadItem sameDirConfig (brokenEnv "/ep3.mp3" 3) sampleFS
      (sampleItem "three" "http://host/ep3.mp3")).fs (utf8 "/dl/ep3.mp3123456789") =
      some (.file [7, 7, 7] 0o600) ∧
    Join sameDirConfig.downloadDir (filenameOf sameDirConfig
      (sampleItem "big" "http://host/ep/aaaaaaaaaaaaaaaaaaaa123456789")
      (brokenEnv "/ep/aaaaaaaaaaaaaaaaaaaa123456789" 3).resp) =
      utf8 "/dl/aaaaaaaaaaaaaaaaaaaa123456789" ∧
    sampleFS (utf8 "/dl/aaaaaaaaaaaaaaaaaaaa123456789") = none ∧
    (downloadItem sameDirConfig (brokenEnv "/ep/aaaaaaaaaaaaaaaaaaaa123456789" 3) sampleFS
      (sampleItem "big" "http://host/ep/aaaaaaaaaaaaaaaaaaaa123456789")).result =
      .ok { name := utf8 "big", msg := "download failed",
            err := some ⟨"unexpected EOF", false⟩ } ∧
    renamesOnto (utf8 "/dl/aaaaaaaaaaaaaaaaaaaa123456789") (downloadItem sameDirConfig
      (brokenEnv "/ep/aaaaaaaaaaaaaaaaaaaa123456789" 3) sampleFS
      (sampleItem "big" "http://host/ep/aaaaaaaaaaaaaaaaaaaa123456789")).trace = 0 ∧
    (downloadItem sameDirConfig (brokenEnv "/ep/aaaaaaaaaaaaaaaaaaaa123456789" 3) sampleFS
      (sampleItem "big" "http://host/ep/aaaaaaaaaaaaaaaaaaaa123456789")).fs
      (utf8 "/dl/aaaaaaaaaaaaaaaaaaaa123456789") = some (.file [7, 7, 7] 0o600) := by
  decide!

/-- C4: whenever `downloadItem` reports `downloaded`, the file at the final path
holds exactly the bytes of the response body, whatever its length, with mode
0644: the copy wrote every byte to the temp file, and the rename moved that file
to the final path. -/
theorem C4_downloaded_file_is_body (cfg : Config) (env : Env) (fs : FS) (it : item) (s : status)
    (hs : (downloadItem cfg env fs it).result = .ok s) (hd : s.downloaded = true) :
    (downloadItem cfg env fs it).fs (Join cfg.downloadDir (filenameOf cfg it env.resp)) =
      some (.file env.resp.Body 0o644) := by
  rcases downloadItem_shape cfg env fs it with ⟨_, _, _, h⟩ | ⟨t, k, _, _, _, _, _, _, h⟩ |
    ⟨t, m, _, _, hfs, _, _, hm⟩
  · rw [h s hs] at hd; exact absurd hd (by decide)
  · rw [h s hs] at hd; exact absurd hd (by decide)
  · rw [hfs, FS.set_same, hm s hs hd]

/-- C4 at a concrete input: the two bytes of the body are the content of
`/dl/ep3.mp3`, and so are the 5000 bytes of a longer body. -/
theorem C4_downloaded_file_is_body_witness :
    (downloadItem (sampleConfig false false) (sampleEnv "/ep3.mp3" [104, 105]) sampleFS
      (sampleItem "three" "http://host/ep3.mp3")).fs (utf8 "/dl/ep3.mp3") =
      some (.file [104, 105] 0o644) ∧
    (downloadItem (sampleConfig false false) (sampleEnv "/ep3.mp3" (List.replicate 5000 7))
      sampleFS (sampleItem "three" "http://host/ep3.mp3")).fs (utf8 "/dl/ep3.mp3") =
      some (.file (List.replicate 5000 7) 0o644) := by
  have hp : ∀ body, Join (sampleConfig false false).downloadDir
      (filenameOf (sampleConfig false false) (sampleItem "three" "http://host/ep3.mp3")
        (sampleEnv "/ep3.mp3" body).resp) = utf8 "/dl/ep3.mp3" := fun _ => by
    show Join (utf8 "/dl") (Base (utf8 "/ep3.mp3")) = utf8 "/dl/ep3.mp3"
    decide!
  have h1 := C4_downloaded_file_is_body (sampleConfig false false)
    (sampleEnv "/ep3.mp3" [104, 105]) sampleFS (sampleItem "three" "http://host/ep3.mp3")
    { name := utf8 "three", filename := utf8 "ep3.mp3", downloaded := true } (by decide!) rfl
  have h2 := C4_downloaded_file_is_body (sampleConfig false false)
    (sampleEnv "/ep3.mp3" (List.replicate 5000 7)) sampleFS
    (sampleItem "three" "http://host/ep3.mp3")
    { name := utf8 "three", filename := utf8 "ep3.mp3", downloaded := true } (by decide!) rfl
  rw [hp] at h1 h2
  exact ⟨h1, h2⟩

/-! ### `filepath.Clean` and a last element -/

theorem isSep_iff (c : Nat) : IsPathSeparator c = true ↔ c = Separator := by
  simp [IsPathSeparator]

theorem not_sep_of_not_mem (c : Nat) (l : List Nat) (h : Separator ∉ c :: l) :
    IsPathSeparator c = false := by
  cases hc : IsPathSeparator c with
  | false => rfl
  | true => exact absurd ((isSep_iff c).1 hc ▸ List.mem_cons_self _ _) h

theorem cleanLoop_nil (rooted : Bool) (s : CleanState) : cleanLoop rooted [] s = s := by
  unfold cleanLoop; rfl

theorem cleanLoop_sep (rooted : Bool) (c : Nat) (rest : List Nat) (s : CleanState)
    (hc : IsPathSeparator c = true) :
    cleanLoop rooted (c :: rest) s = cleanLoop rooted rest ⟨s.out, s.dotdot, false⟩ := by
  conv_lhs => unfold cleanLoop
  simp [hc]

theorem cleanLoop_copying (rooted : Bool) (c : Nat) (rest : List Nat) (s : CleanState)
    (hc : IsPathSeparator c = false) (hs : s.copying = true) :
    cleanLoop rooted (c :: rest) s = cleanLoop rooted rest ⟨c :: s.out, s.dotdot, true⟩ := by
  conv_lhs => unfold cleanLoop
  simp [hc, hs]

theorem cleanLoop_real (rooted : Bool) (c : Nat) (rest : List Nat) (s : CleanState)
    (hc : IsPathSeparator c = false) (hs : s.copying = false) (hd : c ≠ dot) :
    cleanLoop rooted (c :: rest) s =
      cleanLoop rooted rest ⟨c :: withSeparator rooted s.out, s.dotdot, true⟩ := by
  conv_lhs => unfold cleanLoop
  simp [hc, hs, hd]

theorem cleanLoop_dot_end (rooted : Bool) (s : CleanState) (hs : s.copying = false) :
    cleanLoop rooted [dot] s = s := by
  conv_lhs => unfold cleanLoop
  have h1 : IsPathSeparator dot = false := by decide
  simp only [h1, hs, Bool.false_eq_true, if_false, bne_self_eq_false]

theorem cleanLoop_dot_sep (rooted : Bool) (d : Nat) (rest2 : List Nat) (s : CleanState)
    (hs : s.copying = false) (hd : IsPathSeparator d = true) :
    cleanLoop rooted (dot :: d :: rest2) s = cleanLoop rooted rest2 ⟨s.out, s.dotdot, false⟩ := by
  conv_lhs => unfold cleanLoop
  have h1 : IsPathSeparator dot = false := by decide
  simp only [h1, hs, hd, Bool.false_eq_true, if_false, if_true, bne_self_eq_false]

theorem cleanLoop_dotdot (rooted : Bool) (rest2 : List Nat) (s : CleanState)
    (hs : s.copying = false) (hend : rest2.head?.all IsPathSeparator = true) :
    cleanLoop rooted (dot :: dot :: rest2) s = cleanLoop rooted rest2 (dotdotElement rooted s) := by
  conv_lhs => unfold cleanLoop
  have h1 : IsPathSeparator dot = false := by decide
  simp only [h1, hs, hend, Bool.false_eq_true, if_false, if_true, bne_self_eq_false,
    beq_self_eq_true, Bool.and_self]

theorem cleanLoop_dot_real (rooted : Bool) (d : Nat) (rest2 : List Nat) (s : CleanState)
    (hs : s.copying = false) (hd : IsPathSeparator d = false)
    (hnot : (d == dot && (rest2.head?.all IsPathSeparator)) = false) :
    cleanLoop rooted (dot :: d :: rest2) s =
      cleanLoop rooted rest2 ⟨d :: dot :: withSeparator rooted s.out, s.dotdot, true⟩ := by
  conv_lhs => unfold cleanLoop
  have h1 : IsPathSeparator dot = false := by decide
  simp only [h1, hs, hd, hnot, Bool.false_eq_true, if_false, bne_self_eq_false]

/-- Copying a real element: bytes without a separator go to the buffer. -/
theorem cleanLoop_copy (rooted : Bool) (g out : List Nat) (dd : Nat)
    (hg : Separator ∉ g) :
    cleanLoop rooted g ⟨out, dd, true⟩ = ⟨g.reverse ++ out, dd, true⟩ := by
  induction g generalizing out with
  | nil => simp [cleanLoop_nil]
  | cons c rest ih =>
    have hc := not_sep_of_not_mem c rest hg
    have hrest : Separator ∉ rest := fun h => hg (List.mem_cons_of_mem _ h)
    rw [cleanLoop_copying _ _ _ _ hc rfl, ih _ hrest]
    simp

theorem properElement_iff (f : GoString) :
    properElement f = true ↔ f ≠ [] ∧ f ≠ [dot] ∧ f ≠ [dot, dot] ∧ Separator ∉ f := by
  simp [properElement, and_assoc]

/-- A single proper element at the start of an element is copied whole. -/
theorem cleanLoop_element (rooted : Bool) (f out : List Nat) (dd : Nat)
    (hf : properElement f = true) :
    cleanLoop rooted f ⟨out, dd, false⟩ = ⟨f.reverse ++ withSeparator rooted out, dd, true⟩ := by
  obtain ⟨hne, hdot, hdotdot, hmem⟩ := (properElement_iff f).1 hf
  cases f with
  | nil => exact absurd rfl hne
  | cons c rest =>
    have hc := not_sep_of_not_mem c rest hmem
    have hrest : Separator ∉ rest := fun h => hmem (List.mem_cons_of_mem _ h)
    by_cases hcd : c = dot
    · subst hcd
      cases rest with
      | nil => exact absurd rfl hdot
      | cons d rest2 =>
        have hd := not_sep_of_not_mem d rest2 hrest
        have hrest2 : Separator ∉ rest2 := fun h => hrest (List.mem_cons_of_mem _ h)
        have hnot : (d == dot && (rest2.head?.all IsPathSeparator)) = false := by
          cases rest2 with
          | nil =>
            have : d ≠ dot := fun h => hdotdot (by rw [h])
            simp [this]
          | cons e rest3 =>
            have he := not_sep_of_not_mem e rest3 hrest2
            simp [he]
        rw [cleanLoop_dot_real _ _ _ _ rfl hd hnot, cleanLoop_copy _ _ _ _ hrest2]
        simp
    · rw [cleanLoop_real _ _ _ _ hc rfl hcd, cleanLoop_copy _ _ _ _ hrest]
      simp

/-- The loop on a path followed by a separator and more input: the state after
the path, then the rest from the start of an element. -/
theorem cleanLoop_append_sep (rooted : Bool) (n : Nat) (xs ys : List Nat) (s : CleanState)
    (hn : xs.length ≤ n) :
    cleanLoop rooted (xs ++ Separator :: ys) s =
      cleanLoop rooted ys ⟨(cleanLoop rooted xs s).out, (cleanLoop rooted xs s).dotdot, false⟩ := by
  induction n generalizing xs s with
  | zero =>
    have : xs = [] := List.length_eq_zero.1 (Nat.le_zero.1 hn)
    subst this
    rw [List.nil_append, cleanLoop_sep _ _ _ _ (by decide), cleanLoop_nil]
  | succ n ih =>
    cases xs with
    | nil => rw [List.nil_append, cleanLoop_sep _ _ _ _ (by decide), cleanLoop_nil]
    | cons c rest =>
      have hrest : rest.length ≤ n := by simpa using hn
      rw [List.cons_append]
      cases hc : IsPathSeparator c with
      | true => rw [cleanLoop_sep _ _ _ _ hc, cleanLoop_sep _ _ _ _ hc, ih _ _ hrest]
      | false =>
        cases hs : s.copying with
        | true => rw [cleanLoop_copying _ _ _ _ hc hs, cleanLoop_copying _ _ _ _ hc hs, ih _ _ hrest]
        | false =>
          by_cases hcd : c = dot
          · subst hcd
            cases rest with
            | nil =>
              rw [List.nil_append, cleanLoop_dot_sep _ _ _ _ hs (by decide), cleanLoop_dot_end _ _ hs]
            | cons d rest2 =>
              have hrest2 : rest2.length ≤ n := by
                simp only [List.length_cons] at hrest; omega
              rw [List.cons_append]
              cases hd : IsPathSeparator d with
              | true =>
                rw [cleanLoop_dot_sep _ _ _ _ hs hd, cleanLoop_dot_sep _ _ _ _ hs hd, ih _ _ hrest2]
              | false =>
                have hhead : (rest2 ++ Separator :: ys).head?.all IsPathSeparator =
                    rest2.head?.all IsPathSeparator := by
                  cases rest2 with
                  | nil => simp [IsPathSeparator]
                  | cons e rest3 => simp
                cases hdd : (d == dot && (rest2.head?.all IsPathSeparator)) with
                | true =>
                  simp only [Bool.and_eq_true, beq_iff_eq] at hdd
                  obtain ⟨rfl, hend⟩ := hdd
                  rw [cleanLoop_dotdot _ _ _ hs (by rw [hhead]; exact hend),
                    cleanLoop_dotdot _ _ _ hs hend, ih _ _ hrest2]
                | false =>
                  rw [cleanLoop_dot_real _ _ _ _ hs hd (by rw [hhead]; exact hdd),
                    cleanLoop_dot_real _ _ _ _ hs hd hdd, ih _ _ hrest2]
          · rw [cleanLoop_real _ _ _ _ hc hs hcd, cleanLoop_real _ _ _ _ hc hs hcd, ih _ _ hrest]

theorem goodOut_push (c : Nat) (out : List Nat) (h : GoodOut out) (hne : out ≠ []) :
    GoodOut (c :: out) := by
  rcases h with h | ⟨l, x, hl, hx, hdot⟩
  · exact absurd h hne
  · right
    refine ⟨c :: l, x, by rw [hl]; rfl, hx, fun hxd => ?_⟩
    obtain ⟨l2, y, hl2, hy⟩ := hdot hxd
    exact ⟨c :: l2, y, by rw [hl2]; rfl, hy⟩

theorem suffix_snoc (r l : List Nat) (x : Nat) (h : r <:+ l ++ [x]) (hne : r ≠ []) :
    ∃ l2, r = l2 ++ [x] ∧ l2 <:+ l := by
  obtain ⟨pre, hpre⟩ := h
  rcases List.eq_nil_or_concat r with hr | ⟨l2, y, hr⟩
  · exact absurd hr hne
  · subst hr
    rw [List.concat_eq_append, ← List.append_assoc] at hpre
    rw [List.concat_eq_append]
    have := List.append_inj' hpre rfl
    obtain ⟨h1, h2⟩ := this
    simp only [List.cons.injEq, and_true] at h2
    subst h2
    exact ⟨l2, rfl, ⟨pre, h1⟩⟩

/-- Where the backtracking stops: at `dotdot`, or just after a separator. -/
theorem backtrack_spec (dd : Nat) (out : List Nat) (h : out.length > dd) :
    backtrack dd out <:+ out ∧ (backtrack dd out).length ≥ dd ∧
      ((backtrack dd out).length = dd ∨ ∃ pre, out = pre ++ Separator :: backtrack dd out) := by
  induction out with
  | nil => simp at h
  | cons c rest ih =>
    simp only [backtrack]
    split
    · rename_i hcond
      simp only [Bool.and_eq_true, decide_eq_true_eq, Bool.not_eq_true'] at hcond
      obtain ⟨h1, h2, h3⟩ := ih hcond.1
      refine ⟨h1.trans (List.suffix_cons _ _), h2, ?_⟩
      rcases h3 with h3 | ⟨pre, hpre⟩
      · exact Or.inl h3
      · exact Or.inr ⟨c :: pre, by rw [List.cons_append, ← hpre]⟩
    · rename_i hcond
      simp only [Bool.and_eq_true, decide_eq_true_eq, Bool.not_eq_true', not_and,
        Bool.not_eq_false] at hcond
      have hlen : rest.length ≥ dd := by simp only [List.length_cons] at h; omega
      refine ⟨List.suffix_cons _ _, hlen, ?_⟩
      by_cases hgt : rest.length > dd
      · right
        exact ⟨[], by rw [(isSep_iff c).1 (hcond hgt)]; rfl⟩
      · left; omega

theorem inv_reset (rooted : Bool) (s : CleanState) (h : CleanInv rooted s) :
    CleanInv rooted ⟨s.out, s.dotdot, false⟩ := by
  cases rooted with
  | true => exact h
  | false =>
    simp only [CleanInv, Bool.false_eq_true, if_false] at h ⊢
    exact ⟨h.1, h.2.1, fun hc => absurd hc (by decide)⟩

theorem inv_copy (rooted : Bool) (c : Nat) (s : CleanState) (h : CleanInv rooted s)
    (hs : s.copying = true) : CleanInv rooted ⟨c :: s.out, s.dotdot, true⟩ := by
  cases rooted with
  | true =>
    simp only [CleanInv, if_true] at h ⊢
    obtain ⟨hdd, l, hl⟩ := h
    exact ⟨hdd, c :: l, by rw [hl]; rfl⟩
  | false =>
    simp only [CleanInv, Bool.false_eq_true, if_false] at h ⊢
    exact ⟨h.1, goodOut_push c _ h.2.1 (h.2.2 hs), fun _ => List.cons_ne_nil _ _⟩

theorem goodOut_withSeparator (out : List Nat) (h : GoodOut out) (hne : out ≠ []) :
    GoodOut (withSeparator false out) ∧ withSeparator false out ≠ [] := by
  have hlen : out.length ≠ 0 := fun h0 => hne (List.length_eq_zero.1 h0)
  simp only [withSeparator, Bool.false_and, Bool.not_false, Bool.true_and, Bool.false_or,
    bne_iff_ne, ne_eq, hlen, not_false_eq_true, if_true]
  exact ⟨goodOut_push _ _ h hne, List.cons_ne_nil _ _⟩

theorem withSeparator_nil : withSeparator false [] = [] := by
  simp [withSeparator]

theorem withSeparator_rooted (out l : List Nat) (h : out = l ++ [Separator]) :
    ∃ l2, withSeparator true out = l2 ++ [Separator] := by
  simp only [withSeparator]
  split
  · exact ⟨Separator :: l, by rw [h]; rfl⟩
  · exact ⟨l, h⟩

theorem inv_real (rooted : Bool) (c : Nat) (s : CleanState) (h : CleanInv rooted s)
    (hc : c ≠ Separator) (hd : c ≠ dot) :
    CleanInv rooted ⟨c :: withSeparator rooted s.out, s.dotdot, true⟩ := by
  cases rooted with
  | true =>
    simp only [CleanInv, if_true] at h ⊢
    obtain ⟨hdd, l, hl⟩ := h
    obtain ⟨l2, hl2⟩ := withSeparator_rooted _ _ hl
    exact ⟨hdd, c :: l2, by rw [hl2]; rfl⟩
  | false =>
    simp only [CleanInv, Bool.false_eq_true, if_false] at h ⊢
    refine ⟨h.1, ?_, fun _ => List.cons_ne_nil _ _⟩
    by_cases hne : s.out = []
    · rw [hne, withSeparator_nil]
      exact Or.inr ⟨[], c, rfl, hc, fun hcd => absurd hcd hd⟩
    · obtain ⟨h1, h2⟩ := goodOut_withSeparator _ h.2.1 hne
      exact goodOut_push c _ h1 h2

theorem inv_dot_real (rooted : Bool) (d : Nat) (s : CleanState) (h : CleanInv rooted s)
    (hd : d ≠ Separator) :
    CleanInv rooted ⟨d :: dot :: withSeparator rooted s.out, s.dotdot, true⟩ := by
  cases rooted with
  | true =>
    simp only [CleanInv, if_true] at h ⊢
    obtain ⟨hdd, l, hl⟩ := h
    obtain ⟨l2, hl2⟩ := withSeparator_rooted _ _ hl
    exact ⟨hdd, d :: dot :: l2, by rw [hl2]; rfl⟩
  | false =>
    simp only [CleanInv, Bool.false_eq_true, if_false] at h ⊢
    refine ⟨h.1, ?_, fun _ => List.cons_ne_nil _ _⟩
    by_cases hne : s.out = []
    · rw [hne, withSeparator_nil]
      exact Or.inr ⟨[d], dot, rfl, by decide, fun _ => ⟨[], d, rfl, hd⟩⟩
    · obtain ⟨h1, h2⟩ := goodOut_withSeparator _ h.2.1 hne
      exact goodOut_push d _ (goodOut_push dot _ h1 h2) (List.cons_ne_nil _ _)

theorem inv_dotdot (rooted : Bool) (s : CleanState) (h : CleanInv rooted s) :
    CleanInv rooted (dotdotElement rooted s) := by
  unfold dotdotElement
  split
  · rename_i hgt
    obtain ⟨hsuf, hlen, hstop⟩ := backtrack_spec s.dotdot s.out hgt
    cases rooted with
    | true =>
      simp only [CleanInv, if_true] at h ⊢
      obtain ⟨hdd, l, hl⟩ := h
      refine ⟨hdd, ?_⟩
      have hne : backtrack s.dotdot s.out ≠ [] := by
        intro h0; rw [h0, hdd] at hlen; simp at hlen
      have hsuf2 : backtrack s.dotdot s.out <:+ l ++ [Separator] := by rw [← hl]; exact hsuf
      obtain ⟨l2, hl2, _⟩ := suffix_snoc _ _ _ hsuf2 hne
      exact ⟨l2, hl2⟩
    | false =>
      simp only [CleanInv, Bool.false_eq_true, if_false] at h ⊢
      obtain ⟨hdd, hgood, _⟩ := h
      refine ⟨hdd, ?_, fun hc => absurd hc (by decide)⟩
      by_cases hne : backtrack s.dotdot s.out = []
      · exact Or.inl hne
      · rcases hgood with h0 | ⟨l, x, hl, hx, hdot⟩
        · rw [h0] at hgt; simp at hgt
        · have hsuf2 : backtrack s.dotdot s.out <:+ l ++ [x] := by rw [← hl]; exact hsuf
          obtain ⟨l2, hl2, hl2suf⟩ := suffix_snoc _ _ _ hsuf2 hne
          refine Or.inr ⟨l2, x, hl2, hx, fun hxd => ?_⟩
          obtain ⟨l3, y, hl3, hy⟩ := hdot hxd
          have hl2ne : l2 ≠ [] := by
            intro h0
            rw [h0] at hl2
            rcases hstop with hstop | ⟨pre, hpre⟩
            · rw [hl2] at hstop
              exact hdd hstop.symm
            · rw [hl2] at hpre
              rw [hl, hl3] at hpre
              have hpre2 : l3 ++ [y] ++ [x] = (pre ++ [Separator]) ++ [x] := by
                rw [hpre]; simp
              have := (List.append_inj' hpre2 rfl).1
              have := (List.append_inj' this rfl).2
              simp only [List.cons.injEq, and_true] at this
              exact hy this
          rw [hl3] at hl2suf
          obtain ⟨l4, hl4, _⟩ := suffix_snoc _ _ _ hl2suf hl2ne
          exact ⟨l4, y, hl4, hy⟩
  · cases rooted with
    | true => exact inv_reset true s h
    | false =>
      simp only [CleanInv, Bool.false_eq_true, if_false, Bool.not_false, if_true] at h ⊢
      obtain ⟨_, hgood, _⟩ := h
      refine ⟨by simp, ?_, fun hc => absurd hc (by decide)⟩
      split
      · rename_i hpos
        have hne : s.out ≠ [] := fun h0 => by rw [h0] at hpos; simp at hpos
        exact goodOut_push dot _ (goodOut_push dot _ (goodOut_push Separator _ hgood hne)
          (List.cons_ne_nil _ _)) (List.cons_ne_nil _ _)
      · rename_i hpos
        have h0 : s.out = [] := List.length_eq_zero.1 (by omega)
        rw [h0]
        exact Or.inr ⟨[dot], dot, rfl, by decide, fun _ => ⟨[], dot, rfl, by decide⟩⟩

/-- The loop of `Clean` keeps the invariant. -/
theorem cleanLoop_inv (rooted : Bool) (n : Nat) (xs : List Nat) (s : CleanState)
    (hn : xs.length ≤ n) (h : CleanInv rooted s) : CleanInv rooted (cleanLoop rooted xs s) := by
  induction n generalizing xs s with
  | zero =>
    have : xs = [] := List.length_eq_zero.1 (Nat.le_zero.1 hn)
    subst this
    rw [cleanLoop_nil]; exact h
  | succ n ih =>
    cases xs with
    | nil => rw [cleanLoop_nil]; exact h
    | cons c rest =>
      have hrest : rest.length ≤ n := by simpa using hn
      cases hc : IsPathSeparator c with
      | true => rw [cleanLoop_sep _ _ _ _ hc]; exact ih _ _ hrest (inv_reset _ _ h)
      | false =>
        have hcne : c ≠ Separator := fun h0 => by rw [(isSep_iff c).2 h0] at hc; exact absurd hc (by decide)
        cases hs : s.copying with
        | true => rw [cleanLoop_copying _ _ _ _ hc hs]; exact ih _ _ hrest (inv_copy _ _ _ h hs)
        | false =>
          by_cases hcd : c = dot
          · subst hcd
            cases rest with
            | nil => rw [cleanLoop_dot_end _ _ hs]; exact h
            | cons d rest2 =>
              have hrest2 : rest2.length ≤ n := by
                simp only [List.length_cons] at hrest; omega
              cases hd : IsPathSeparator d with
              | true => rw [cleanLoop_dot_sep _ _ _ _ hs hd]; exact ih _ _ hrest2 (inv_reset _ _ h)
              | false =>
                have hdne : d ≠ Separator := fun h0 => by
                  rw [(isSep_iff d).2 h0] at hd; exact absurd hd (by decide)
                cases hdd : (d == dot && (rest2.head?.all IsPathSeparator)) with
                | true =>
                  simp only [Bool.and_eq_true, beq_iff_eq] at hdd
                  obtain ⟨rfl, hend⟩ := hdd
                  rw [cleanLoop_dotdot _ _ _ hs hend]
                  exact ih _ _ hrest2 (inv_dotdot _ _ h)
                | false =>
                  rw [cleanLoop_dot_real _ _ _ _ hs hd hdd]
                  exact ih _ _ hrest2 (inv_dot_real _ _ _ h hdne)
          · rw [cleanLoop_real _ _ _ _ hc hs hcd]
            exact ih _ _ hrest (inv_real _ _ _ h hcne hcd)

/-- A proper element cleans to itself. -/
theorem Clean_properElement (f : GoString) (hf : properElement f = true) : Clean f = f := by
  obtain ⟨hne, _, _, hmem⟩ := (properElement_iff f).1 hf
  cases f with
  | nil => exact absurd rfl hne
  | cons c rest =>
    have hc := not_sep_of_not_mem c rest hmem
    simp only [Clean, List.cons_ne_nil, if_false, List.head?_cons, Option.all_some, hc,
      Bool.false_eq_true]
    rw [cleanLoop_element _ _ _ _ hf]
    simp [withSeparator]

/-- The final path of a proper element: the cleaned directory, a separator unless
the directory is the root or the current directory, and the element. -/
theorem Join_properElement (dir f : GoString) (hf : properElement f = true) :
    Join dir f = childOf (Clean dir) f := by
  obtain ⟨hne, _, _, hmem⟩ := (properElement_iff f).1 hf
  cases dir with
  | nil =>
    simp only [Join, ne_eq, not_true_eq_false, if_false, hne, not_false_eq_true, if_true]
    rw [Clean_properElement f hf]
    simp [Clean, childOf]
  | cons c rest =>
    simp only [Join, ne_eq, List.cons_ne_nil, not_false_eq_true, if_true]
    cases hc : IsPathSeparator c with
    | true =>
      have hinv := cleanLoop_inv true rest.length rest ⟨[Separator], 1, false⟩ (Nat.le_refl _)
        (by simp [CleanInv])
      simp only [CleanInv, if_true] at hinv
      obtain ⟨_, l, hl⟩ := hinv
      simp only [Clean, List.cons_append, List.cons_ne_nil, if_false, List.head?_cons,
        Option.all_some, hc, if_true, List.tail_cons]
      rw [cleanLoop_append_sep true rest.length rest f _ (Nat.le_refl _),
        cleanLoop_element _ _ _ _ hf]
      cases l with
      | nil =>
        rw [hl]
        have hlen : f.length + 1 ≠ 0 := by omega
        simp [withSeparator, childOf, Separator, dot]
      | cons a l2 =>
        rw [hl]
        simp [withSeparator, childOf]
    | false =>
      have hinv := cleanLoop_inv false (c :: rest).length (c :: rest) ⟨[], 0, false⟩ (Nat.le_refl _)
        (by simp [CleanInv, GoodOut])
      simp only [CleanInv, Bool.false_eq_true, if_false] at hinv
      obtain ⟨_, hgood, _⟩ := hinv
      simp only [Clean, List.cons_append, List.cons_ne_nil, if_false, List.head?_cons,
        Option.all_some, hc, Bool.false_eq_true]
      rw [← List.cons_append, cleanLoop_append_sep false (c :: rest).length (c :: rest) f _ (Nat.le_refl _),
        cleanLoop_element _ _ _ _ hf]
      rcases hgood with h0 | ⟨l, x, hl, hx, hdot⟩
      · rw [h0]
        have hf0 : f ≠ [] := hne
        simp [withSeparator, childOf, hf0]
      · rw [hl]
        have h1 : x :: l.reverse ≠ [dot] := by
          intro h
          simp only [List.cons.injEq, List.reverse_eq_nil_iff] at h
          obtain ⟨l2, y, hl2, _⟩ := hdot h.1
          rw [h.2] at hl2
          simp at hl2
        have h2 : x :: l.reverse ≠ [Separator] := by
          intro h
          simp only [List.cons.injEq] at h
          exact hx h.1
        simp [withSeparator, childOf, h1, h2]

/-! ### The shape of the filename -/

theorem lastElement_no_sep (l : List Nat) : Separator ∉ lastElement l := by
  induction l with
  | nil => simp [lastElement]
  | cons c rest ih =>
    simp only [lastElement]
    split
    · simp
    · rename_i hc
      intro h
      rcases List.mem_cons.1 h with h | h
      · exact hc ((isSep_iff c).2 h.symm)
      · exact ih h

theorem Base_shape (path : GoString) :
    Base path ≠ [] ∧ (Separator ∈ Base path → Base path = [Separator]) := by
  unfold Base
  split
  · exact ⟨by simp, fun h => absurd h (by decide)⟩
  · simp only []
    split
    · exact ⟨by simp, fun _ => rfl⟩
    · rename_i hne
      refine ⟨hne, fun h => ?_⟩
      rw [List.mem_reverse] at h
      exact absurd h (lastElement_no_sep _)

theorem extLoop_no_sep (l seen : List Nat) (h : Separator ∉ seen) :
    Separator ∉ extLoop l seen := by
  induction l generalizing seen with
  | nil => simp [extLoop]
  | cons c rest ih =>
    simp only [extLoop]
    split
    · simp
    · rename_i hc
      have hc2 : Separator ∉ c :: seen := by
        intro hm
        rcases List.mem_cons.1 hm with hm | hm
        · exact hc ((isSep_iff c).2 hm.symm)
        · exact h hm
      split
      · exact hc2
      · exact ih _ hc2

theorem Ext_no_sep (path : GoString) : Separator ∉ Ext path :=
  extLoop_no_sep _ _ (by simp)

theorem encodeRune_sep (r : Char) (h : Separator ∈ encodeRune r) : r = '/' := by
  have hval : r.toNat = 47 := by
    unfold encodeRune at h
    simp only [Separator] at h
    split at h
    · simp only [List.mem_singleton] at h
      exact h.symm
    · split at h
      · simp only [List.mem_cons, List.mem_singleton, List.not_mem_nil, or_false] at h
        omega
      · split at h
        · simp only [List.mem_cons, List.mem_singleton, List.not_mem_nil, or_false] at h
          omega
        · simp only [List.mem_cons, List.mem_singleton, List.not_mem_nil, or_false] at h
          omega
  apply Char.ext
  apply UInt32.ext
  exact hval

theorem utf8_sep (s : String) (h : Separator ∈ utf8 s) : '/' ∈ s.data := by
  simp only [utf8, List.mem_flatMap] at h
  obtain ⟨r, hr, hmem⟩ := h
  rw [← encodeRune_sep r hmem]
  exact hr

theorem escapeTitle_no_slash (s : String) : '/' ∉ (escapeTitle s).data := by
  rw [escapeTitle_data]
  intro h
  simp only [List.mem_map] at h
  obtain ⟨a, _, ha⟩ := h
  by_cases hres : reserved a = true
  · simp [hres] at ha
  · simp only [hres] at ha
    simp only [Bool.false_eq_true, if_false] at ha
    rw [ha] at hres
    exact hres (by decide)

/-- C10 (as amended): the filename has no separator in title mode; in URL-path
mode it is not empty and has a separator only when it is `/` itself; and whenever
it is a proper element (not empty, not `.` or `..`, no separator) the final path,
which is the target of every successful rename, is that element directly under
the cleaned download directory. -/
theorem C10_filename_shape (cfg : Config) (env : Env) (fs : FS) (it : item) :
    (cfg.useTitleAsFilename = true → Separator ∉ filenameOf cfg it env.resp) ∧
    (cfg.useTitleAsFilename = false → filenameOf cfg it env.resp ≠ [] ∧
      (Separator ∈ filenameOf cfg it env.resp → filenameOf cfg it env.resp = [Separator])) ∧
    (properElement (filenameOf cfg it env.resp) = true →
      Join cfg.downloadDir (filenameOf cfg it env.resp) =
        childOf (Clean cfg.downloadDir) (filenameOf cfg it env.resp) ∧
      ∀ old new, Event.rename old new true ∈ (downloadItem cfg env fs it).trace →
        new = childOf (Clean cfg.downloadDir) (filenameOf cfg it env.resp)) := by
  refine ⟨fun htitle => ?_, fun hurl => ?_, fun hproper => ?_⟩
  · simp only [filenameOf, htitle, if_true, List.mem_append, not_or]
    exact ⟨fun h => escapeTitle_no_slash _ (utf8_sep _ h), Ext_no_sep _⟩
  · simp only [filenameOf, hurl, Bool.false_eq_true, if_false]
    exact Base_shape _
  · have hjoin := Join_properElement cfg.downloadDir _ hproper
    refine ⟨hjoin, fun old new hmem => ?_⟩
    rcases downloadItem_shape cfg env fs it with ⟨_, _, h, _⟩ | ⟨t, k, _, _, _, _, _, h, _⟩ |
      ⟨t, m, _, _, _, h, _, _⟩
    · exact absurd hmem (h old new)
    · exact absurd hmem (h old new)
    · rw [(h old new hmem).2, hjoin]

/-- C10 (as amended) at a concrete input: the URL path `/ep3.mp3` gives the final
path `/dl/ep3.mp3`. -/
theorem C10_filename_shape_witness :
    properElement (filenameOf (sampleConfig false false)
      (sampleItem "three" "http://host/ep3.mp3") (sampleEnv "/ep3.mp3" [104, 105]).resp) = true ∧
    Join (sampleConfig false false).downloadDir (filenameOf (sampleConfig false false)
      (sampleItem "three" "http://host/ep3.mp3") (sampleEnv "/ep3.mp3" [104, 105]).resp) =
      utf8 "/dl/ep3.mp3" := by
  have h := (C10_filename_shape (sampleConfig false false) (sampleEnv "/ep3.mp3" [104, 105])
    sampleFS (sampleItem "three" "http://host/ep3.mp3")).2.2 (by decide!)
  refine ⟨by decide!, ?_⟩
  rw [h.1]
  decide!

/-- C10 (counterexample): an empty URL path gives the filename `.`, whose final
path is the download directory itself, and the item is reported as already
existing; the paths `/` and `/a/..` give the filenames `/` and `..`; in title
mode an empty title without extension gives the empty filename, and the title
`.` gives `.`, or `..` with the extension `.`. -/
theorem C10_degenerate_filenames :
    filenameOf (sampleConfig false false) (sampleItem "three" "http://host")
      (sampleEnv "" []).resp = utf8 "." ∧
    properElement (filenameOf (sampleConfig false false) (sampleItem "three" "http://host")
      (sampleEnv "" []).resp) = false ∧
    Join (sampleConfig false false).downloadDir (filenameOf (sampleConfig false false)
      (sampleItem "three" "http://host") (sampleEnv "" []).resp) = utf8 "/dl" ∧
    (downloadItem (sampleConfig false false) (sampleEnv "" []) sampleFS
      (sampleItem "three" "http://host")).result =
      .ok { name := utf8 "three", filename := utf8 "." } ∧
    filenameOf (sampleConfig false false) (sampleItem "three" "http://host/")
      (sampleEnv "/" []).resp = utf8 "/" ∧
    filenameOf (sampleConfig false false) (sampleItem "three" "http://host/a/..")
      (sampleEnv "/a/.." []).resp = utf8 ".." ∧
    Join (sampleConfig false false).downloadDir (utf8 "..") = utf8 "/" ∧
    filenameOf (sampleConfig false true) (sampleItem "" "http://host/ep3")
      (sampleEnv "/ep3" []).resp = [] ∧
    filenameOf (sampleConfig false true) (sampleItem "." "http://host/ep3")
      (sampleEnv "/ep3" []).resp = utf8 "." ∧
    filenameOf (sampleConfig false true) (sampleItem "." "http://host/ep3.")
      (sampleEnv "/ep3." []).resp = utf8 ".." := by
  decide!


/-! ### The non-200 response in general -/

/-- Every non-200 response gives a status without error, which the worker logs as
`already exists` with an empty filename. -/
theorem non200_logged_as_already_exists (cfg : Config) (env : Env) (fs : FS) (it : item)
    (encl : enclosure) (url : GoString)
    (hencl : it.Enclosure = some encl) (hparse : env.urlParse encl.URL = .ok url)
    (hreq : env.newRequest url = none) (hdo : env.doErr = none)
    (hcode : env.resp.StatusCode ≠ 200) :
    (downloadItem cfg env fs it).result =
      .ok { name := truncate (utf8 it.Title) 60, err := none,
            msg := "unexpected response from the server: " ++ toString env.resp.StatusCode } ∧
    (downloadItems cfg [(env, it)] fs).log = [.alreadyExists []] := by
  have key : downloadItem cfg env fs it =
      ⟨.ok { name := truncate (utf8 it.Title) 60, err := none,
             msg := "unexpected response from the server: " ++ toString env.resp.StatusCode }, fs,
        [.urlParse true, .newRequest true, .httpDo true, .response env.resp.StatusCode,
          .closeBody]⟩ := by
    unfold downloadItem downloadURL
    simp [hencl, hparse, hreq, hdo, hcode, isTimeout]
  refine ⟨by rw [key], ?_⟩
  simp [downloadItems, key]

end RssDl
